import Mathlib

set_option maxRecDepth 100000

namespace Cortex

/-! ## SHA-256 (embedding of the `sha2` crate's `Sha256`, FIPS 180-4)

Bytes are `Nat` values `< 256`; words are `Nat` values `< 2^32` kept reduced
by explicit `% 2^32`. -/

/-- 32-bit truncation. -/
def w32 (x : Nat) : Nat := x % 4294967296

/-- Right rotation of a 32-bit word. -/
def rotr (n x : Nat) : Nat := w32 ((x >>> n) ||| (x <<< (32 - n)))

/-- Bitwise complement of a 32-bit word. -/
def wnot (x : Nat) : Nat := 4294967295 - x

/-- SHA-256 round constants (FIPS 180-4 §4.2.2, written in decimal). -/
def shaK : List Nat :=
  [1116352408, 1899447441, 3049323471, 3921009573, 961987163,
   1508970993, 2453635748, 2870763221, 3624381080, 310598401,
   607225278, 1426881987, 1925078388, 2162078206, 2614888103,
   3248222580, 3835390401, 4022224774, 264347078, 604807628,
   770255983, 1249150122, 1555081692, 1996064986, 2554220882,
   2821834349, 2952996808, 3210313671, 3336571891, 3584528711,
   113926993, 338241895, 666307205, 773529912, 1294757372,
   1396182291, 1695183700, 1986661051, 2177026350, 2456956037,
   2730485921, 2820302411, 3259730800, 3345764771, 3516065817,
   3600352804, 4094571909, 275423344, 430227734, 506948616,
   659060556, 883997877, 958139571, 1322822218, 1537002063,
   1747873779, 1955562222, 2024104815, 2227730452, 2361852424,
   2428436474, 2756734187, 3204031479, 3329325298]

/-- Initial hash state (FIPS 180-4 §5.3.3, written in decimal). -/
def shaH0 : List Nat :=
  [1779033703, 3144134277, 1013904242, 2773480762,
   1359893119, 2600822924, 528734635, 1541459225]

/-- Big-endian 4-byte group to a word. -/
def beWord : List Nat → Nat
  | [a, b, c, d] => ((a * 256 + b) * 256 + c) * 256 + d
  | _ => 0

/-- Split a list into chunks of `n` elements, structurally recursive on a fuel
bound so that the kernel can evaluate it (`n > 0` assumed by callers). -/
def chunksGo (n : Nat) : Nat → List Nat → List (List Nat)
  | 0, _ => []
  | _, [] => []
  | fuel + 1, l => l.take n :: chunksGo n fuel (l.drop n)

/-- Split a list into chunks of `n` elements (`n > 0` assumed by callers). -/
def chunks (n : Nat) (l : List Nat) : List (List Nat) := chunksGo n l.length l

/-- Message schedule: extend the 16 block words to 64. -/
def shaSchedule (w16 : Array Nat) : Array Nat :=
  (List.range 48).foldl
    (fun w _ =>
      let i := w.size
      let x15 := w.getD (i - 15) 0
      let x2 := w.getD (i - 2) 0
      let s0 := (rotr 7 x15) ^^^ (rotr 18 x15) ^^^ (x15 >>> 3)
      let s1 := (rotr 17 x2) ^^^ (rotr 19 x2) ^^^ (x2 >>> 10)
      w.push (w32 (w.getD (i - 16) 0 + s0 + w.getD (i - 7) 0 + s1)))
    w16

/-- One compression round. -/
def shaRound (st : List Nat) (kw : Nat × Nat) : List Nat :=
  match st with
  | [a, b, c, d, e, f, g, h] =>
    let s1 := (rotr 6 e) ^^^ (rotr 11 e) ^^^ (rotr 25 e)
    let ch := (e &&& f) ^^^ ((wnot e) &&& g)
    let t1 := w32 (h + s1 + ch + kw.1 + kw.2)
    let s0 := (rotr 2 a) ^^^ (rotr 13 a) ^^^ (rotr 22 a)
    let mj := (a &&& b) ^^^ (a &&& c) ^^^ (b &&& c)
    let t2 := w32 (s0 + mj)
    [w32 (t1 + t2), a, b, c, w32 (d + t1), e, f, g]
  | _ => st

/-- Compress one 64-byte block into the running state. -/
def shaCompress (st : List Nat) (block : List Nat) : List Nat :=
  let w := shaSchedule ((chunks 4 block).map beWord).toArray
  let st' := (shaK.zip w.toList).foldl shaRound st
  (st.zip st').map (fun p => w32 (p.1 + p.2))

/-- FIPS padding: append 0x80, zeros to 56 mod 64, then the 64-bit bit length. -/
def shaPad (msg : List Nat) : List Nat :=
  let len := msg.length
  let zeros := (64 + 55 - (len % 64)) % 64
  let lenBits := len * 8
  msg ++ [0x80] ++ List.replicate zeros 0 ++
    [w32 (lenBits / 2 ^ 56) % 256, (lenBits / 2 ^ 48) % 256, (lenBits / 2 ^ 40) % 256,
     (lenBits / 2 ^ 32) % 256, (lenBits / 2 ^ 24) % 256, (lenBits / 2 ^ 16) % 256,
     (lenBits / 2 ^ 8) % 256, lenBits % 256]

/-- A word as four big-endian bytes. -/
def wordBytes (x : Nat) : List Nat :=
  [(x / 2 ^ 24) % 256, (x / 2 ^ 16) % 256, (x / 2 ^ 8) % 256, x % 256]

/-- SHA-256 of a byte sequence, as 32 digest bytes. -/
def sha256 (msg : List Nat) : List Nat :=
  (((chunks 64 (shaPad msg)).foldl shaCompress shaH0).map wordBytes).flatten

/-- Lower-case hex digit of a nibble: `0`–`9` then `a`–`f`. -/
def hexDigit (n : Nat) : Char :=
  if n < 10 then Char.ofNat (48 + n) else Char.ofNat (87 + n)

/-- Hex encoding of a byte list (embedding of `hex::encode`). -/
def hexEncode (bs : List Nat) : String :=
  String.mk (bs.foldr (fun b acc => hexDigit (b / 16) :: hexDigit (b % 16) :: acc) [])

/-- UTF-8 encoding of a Unicode code point. -/
def utf8EncodeChar (n : Nat) : List Nat :=
  if n < 0x80 then [n]
  else if n < 0x800 then [0xC0 ||| (n >>> 6), 0x80 ||| (n &&& 0x3F)]
  else if n < 0x10000 then
    [0xE0 ||| (n >>> 12), 0x80 ||| ((n >>> 6) &&& 0x3F), 0x80 ||| (n &&& 0x3F)]
  else
    [0xF0 ||| (n >>> 18), 0x80 ||| ((n >>> 12) &&& 0x3F), 0x80 ||| ((n >>> 6) &&& 0x3F),
     0x80 ||| (n &&& 0x3F)]

/-- The UTF-8 bytes of a string (Rust `str::as_bytes`). -/
def utf8Bytes (s : String) : List Nat :=
  (s.data.map (fun c => utf8EncodeChar c.toNat)).flatten

/-! ## Canonical JSON (embedding of `serde_json` output on the core structures)

`serde_json::to_string(&serde_json::to_value(v))` emits compact JSON whose
object keys are sorted byte-wise (`serde_json`'s map is a `BTreeMap`); for the
structures below the declared field order already coincides with sorted order. -/

/-- `serde_json`'s escaping of one character inside a JSON string literal. -/
def jsonEscapeChar (c : Char) : List Char :=
  if c = '"' then ['\\', '"']
  else if c = '\\' then ['\\', '\\']
  else if c = Char.ofNat 8 then ['\\', 'b']
  else if c = Char.ofNat 9 then ['\\', 't']
  else if c = Char.ofNat 10 then ['\\', 'n']
  else if c = Char.ofNat 12 then ['\\', 'f']
  else if c = Char.ofNat 13 then ['\\', 'r']
  else if c.toNat < 0x20 then
    ['\\', 'u', '0', '0', hexDigit (c.toNat / 16), hexDigit (c.toNat % 16)]
  else [c]

/-- `serde_json` string escaping (without the surrounding quotes). -/
def jsonEscape (s : String) : String :=
  String.mk ((s.data.map jsonEscapeChar).flatten)

/-- A manifest entry (src/rust/mcp/src/snapshot/store.rs, `Entry`). -/
structure Entry where
  blob : String
  path : String
  size : Nat
  deriving DecidableEq

/-- A manifest (src/rust/mcp/src/snapshot/store.rs, `Manifest`). -/
structure Manifest where
  entries : List Entry
  deriving DecidableEq

/-- Canonical JSON of one entry: keys `blob`, `path`, `size` in sorted order. -/
def entryJson (e : Entry) : String :=
  "\x7b\"blob\":\"" ++ jsonEscape e.blob ++ "\",\"path\":\"" ++ jsonEscape e.path ++
    "\",\"size\":" ++ toString e.size ++ "\x7d"

/-- Join strings with a separator (kernel-evaluable `String.intercalate`). -/
def strJoin (sep : String) : List String → String
  | [] => ""
  | x :: rest => rest.foldl (fun acc y => acc ++ sep ++ y) x

/-- Embedding of `Manifest::to_canonical_json` (serde output on `Manifest`). -/
def Manifest.toCanonicalJson (m : Manifest) : String :=
  "\x7b\"entries\":[" ++ strJoin "," (m.entries.map entryJson) ++ "]\x7d"

/-- Strict lexicographic order on character lists by code point; on UTF-8
data this coincides with Rust's byte-wise `Ord` on `String`. -/
def charListLt : List Char → List Char → Bool
  | [], [] => false
  | [], _ :: _ => true
  | _ :: _, [] => false
  | a :: as, b :: bs =>
    if a.toNat < b.toNat then true
    else if b.toNat < a.toNat then false
    else charListLt as bs

/-- Rust `String` strict order. -/
def strLt (a b : String) : Bool := charListLt a.data b.data

/-- Rust `String` order (`a <= b` iff `!(b < a)`). -/
def strLe (a b : String) : Bool := !(strLt b a)

/-- Path order on entries, used by `Manifest::new`'s `sort_by`. -/
def entryLe (a b : Entry) : Prop := strLe a.path b.path = true

instance : DecidableRel entryLe := fun a b => Bool.decEq (strLe a.path b.path) true

/-- Embedding of `Manifest::new`: enforce lexicographic order by path
(Rust `sort_by` is a stable sort; `List.insertionSort` is stable as well). -/
def Manifest.new (entries : List Entry) : Manifest :=
  ⟨List.insertionSort entryLe entries⟩

/-- Embedding of `Manifest::compute_snapshot_id`: hash the fingerprint JSON
bytes, the single byte `b"\n"` (= 10), then the canonical manifest bytes. -/
def Manifest.computeSnapshotId (m : Manifest) (fingerprintJson : String) : String :=
  "sha256:" ++ hexEncode (sha256 (utf8Bytes fingerprintJson ++ [10] ++ utf8Bytes m.toCanonicalJson))

/-- A repository fingerprint (src/rust/mcp/src/snapshot/lease.rs, `Fingerprint`). -/
structure Fingerprint where
  head_oid : String
  index_oid : String
  status_hash : String
  deriving DecidableEq

/-- Canonical JSON of a fingerprint: keys `head_oid`, `index_oid`, `status_hash`
in sorted order (serde output on `Fingerprint`). -/
def Fingerprint.toCanonicalJson (fp : Fingerprint) : String :=
  "\x7b\"head_oid\":\"" ++ jsonEscape fp.head_oid ++ "\",\"index_oid\":\"" ++
    jsonEscape fp.index_oid ++ "\",\"status_hash\":\"" ++ jsonEscape fp.status_hash ++ "\"\x7d"

/-! Spec-side definitions for the identity rule (claim C1 compares these with
the code path). They follow the spec's words: `snapshot_id = "sha256:" +
hex(SHA256(canonical(fingerprint) || 0x0A || canonical(manifest)))`, with the
canonical JSON shapes displayed in the spec's §6. -/

/-- Spec's canonical fingerprint JSON `{"head_oid":"…","index_oid":"…","status_hash":"…"}`. -/
def specCanonicalFingerprint (fp : Fingerprint) : String :=
  "\x7b\"head_oid\":\"" ++ jsonEscape fp.head_oid ++ "\",\"index_oid\":\"" ++
    jsonEscape fp.index_oid ++ "\",\"status_hash\":\"" ++ jsonEscape fp.status_hash ++ "\"\x7d"

/-- Spec's canonical manifest JSON `{"entries":[{"blob":"…","path":"…","size":<int>},…]}`. -/
def specCanonicalManifest (m : Manifest) : String :=
  "\x7b\"entries\":[" ++ strJoin "," (m.entries.map entryJson) ++ "]\x7d"

/-- The spec's identity rule, written as the spec states it: SHA-256 over the
canonical fingerprint bytes, the mandatory separator byte 0x0A, and the
canonical manifest bytes. -/
def specSnapshotId (fp : Fingerprint) (m : Manifest) : String :=
  "sha256:" ++ hexEncode (sha256
    (utf8Bytes (specCanonicalFingerprint fp) ++ [0x0A] ++ utf8Bytes (specCanonicalManifest m)))

/-! ## Metadata store (embedding of `Store` over `store.sqlite`)

The SQLite connection is modelled as an explicit value of type `Db`; a
transaction that returns `Err` before `commit` is rolled back by `rusqlite`,
which the embedding renders by returning `Except.error` (the caller keeps the
pre-transaction `Db`). Timestamp columns (`created_at`, `issued_at`) are
omitted: no claim depends on them. The storage configuration modelled is the
one every in-repo construction uses (`BlobBackend::Fs`, `Compression::None`),
so `put_blob` stores bytes unchanged and hashes the stored bytes. -/

/-- A row of the `blobs` relation (hash is the association key). -/
structure BlobRow where
  sizeBytes : Nat
  refcount : Nat
  deriving DecidableEq

/-- A row of the `snapshots` relation (snapshot_id is the association key).
`manifest` stands for the canonical `manifest_bytes` in parsed form (every
in-repo caller passes `Manifest::to_canonical_json` bytes, and serde parsing
of those bytes is the identity on the structure). The `derived_from`,
`applied_patch_hash` and `label` columns are called with 8 arguments by
`workspace/mod.rs` and the integration tests although the copy of
`put_snapshot` under src/ shows 5 parameters; the extra columns are modelled
from the spec (§3 Snapshot tuple, §4.8 step 7). -/
structure SnapRow where
  repoRoot : String
  headSha : String
  fingerprintJson : String
  manifestHash : String
  manifest : Manifest
  derivedFrom : Option String := none
  appliedPatchHash : Option String := none
  deriving DecidableEq

/-- A row of the `manifest_entries` relation (primary key `(sid, path)`). -/
structure EntryRow where
  sid : String
  path : String
  blobHash : String
  sizeBytes : Nat
  deriving DecidableEq

/-- The durable state: the three catalog relations plus the filesystem blob
backend (`blobs/sha256/<xx>/<hex>`), modelled as hash → stored bytes. -/
structure Db where
  blobs : List (String × BlobRow)
  snaps : List (String × SnapRow)
  manifestEntries : List EntryRow
  blobFs : List (String × List Nat)
  deriving DecidableEq

/-- The empty store (fresh `store.sqlite` after migration). -/
def Db.empty : Db := ⟨[], [], [], []⟩

/-- First row of an association list with the given key (SQL lookup by PK). -/
def assocGet (l : List (String × β)) (k : String) : Option β :=
  (l.find? (fun p => p.1 == k)).map (·.2)

/-- Whether a key is present (SQL `SELECT 1 … WHERE hash = ?`). -/
def assocHas (l : List (String × β)) (k : String) : Bool :=
  l.any (fun p => p.1 == k)

/-- Embedding of `Store::put_blob` under `Compression::None`: hash the stored
bytes, write-if-absent to the backend, `INSERT OR IGNORE` the catalog row
(refcount defaults to 0). Returns the hash and the new state. -/
def Store.putBlob (db : Db) (data : List Nat) : String × Db :=
  let hash := "sha256:" ++ hexEncode (sha256 data)
  let fs' := if assocHas db.blobFs hash then db.blobFs else db.blobFs ++ [(hash, data)]
  let blobs' :=
    if assocHas db.blobs hash then db.blobs
    else db.blobs ++ [(hash, { sizeBytes := data.length, refcount := 0 })]
  (hash, { db with blobFs := fs', blobs := blobs' })

/-- `UPDATE blobs SET refcount = MAX(0, refcount - 1) WHERE hash = ?`
(`Nat` subtraction is exactly `MAX(0, · - 1)` on non-negative counts). -/
def refDecOne (h : String) (blobs : List (String × BlobRow)) : List (String × BlobRow) :=
  blobs.map (fun p => if p.1 == h then (p.1, { p.2 with refcount := p.2.refcount - 1 }) else p)

/-- The decrement loop over the prior entry set of an overwritten snapshot. -/
def refDecAll (hs : List String) (blobs : List (String × BlobRow)) : List (String × BlobRow) :=
  hs.foldl (fun bl h => refDecOne h bl) blobs

/-- `UPDATE blobs SET refcount = refcount + 1 WHERE hash = ?`. -/
def refIncOne (h : String) (blobs : List (String × BlobRow)) : List (String × BlobRow) :=
  blobs.map (fun p => if p.1 == h then (p.1, { p.2 with refcount := p.2.refcount + 1 }) else p)

/-- The increment loop over a list of blob hashes. -/
def refIncAll (hs : List String) (blobs : List (String × BlobRow)) : List (String × BlobRow) :=
  hs.foldl (fun bl h => refIncOne h bl) blobs

/-- The rows of `manifest_entries` belonging to a snapshot id. -/
def entryRowsFor (db : Db) (id : String) : List EntryRow :=
  db.manifestEntries.filter (fun r => r.sid == id)

/-- Step 4/5 of `put_snapshot`: insert each new entry row and increment the
referenced blob's refcount; when no blob row was updated, return the error
that aborts (rolls back) the transaction. -/
def insertEntriesLoop (id : String) :
    List Entry → List (String × BlobRow) → List EntryRow →
    Except String (List (String × BlobRow) × List EntryRow)
  | [], blobs, rows => .ok (blobs, rows)
  | e :: rest, blobs, rows =>
    if assocHas blobs e.blob then
      insertEntriesLoop id rest (refIncOne e.blob blobs) (rows ++ [⟨id, e.path, e.blob, e.size⟩])
    else
      .error ("Referenced blob not found in DB: " ++ e.blob)

/-- Embedding of `Store::put_snapshot` (the snapshot write transaction):
read prior entries, decrement their refcounts when overwriting, upsert the
snapshot row, delete prior entries, insert new entries incrementing
refcounts, abort on a missing blob row. `Except.error` is the rolled-back
transaction: the caller's durable state is unchanged. -/
def Store.putSnapshot (db : Db) (id repoRoot headSha fingerprintJson : String) (m : Manifest)
    (derivedFrom appliedPatchHash : Option String) : Except String Db :=
  let manifestHash := "sha256:" ++ hexEncode (sha256 (utf8Bytes m.toCanonicalJson))
  let blobs1 :=
    if (assocGet db.snaps id).isSome then
      refDecAll ((entryRowsFor db id).map (·.blobHash)) db.blobs
    else db.blobs
  let snaps2 := db.snaps.filter (fun p => !(p.1 == id)) ++
    [(id, { repoRoot := repoRoot, headSha := headSha, fingerprintJson := fingerprintJson,
            manifestHash := manifestHash, manifest := m, derivedFrom := derivedFrom,
            appliedPatchHash := appliedPatchHash })]
  let rows3 := db.manifestEntries.filter (fun r => !(r.sid == id))
  match insertEntriesLoop id m.entries blobs1 rows3 with
  | .error e => .error e
  | .ok (blobs4, rows4) => .ok { db with blobs := blobs4, snaps := snaps2, manifestEntries := rows4 }

/-- Embedding of `Store::list_snapshot_entries`: entry rows ordered by path
(`ORDER BY path ASC`), falling back to the stored manifest when the relation
has no rows for the id. -/
def Store.listSnapshotEntries (db : Db) (id : String) : List Entry :=
  let entries := List.insertionSort entryLe
    ((entryRowsFor db id).map (fun r => ⟨r.blobHash, r.path, r.sizeBytes⟩))
  if entries.isEmpty then
    match assocGet db.snaps id with
    | some row => row.manifest.entries
    | none => []
  else entries

/-- Embedding of `Store::get_blob` under `Compression::None`: read the stored
bytes from the backend (the `compression = "none"` catalog row means no
transform on read). -/
def Store.getBlob (db : Db) (hash : String) : Option (List Nat) :=
  assocGet db.blobFs hash

/-- Embedding of `Store::get_snapshot_info`. -/
def Store.getSnapshotInfo (db : Db) (id : String) : Option SnapRow :=
  assocGet db.snaps id

/-- Split a character list at a separator character (kernel-evaluable
single-character `String.splitOn`). -/
def splitCharsGo (sep : Char) : List Char → List Char → List (List Char)
  | [], acc => [acc.reverse]
  | c :: rest, acc =>
    if c == sep then acc.reverse :: splitCharsGo sep rest []
    else splitCharsGo sep rest (c :: acc)

/-- Split a string at a separator character. -/
def splitStr (sep : Char) (s : String) : List String :=
  (splitCharsGo sep s.data []).map String.mk

/-- Whether a string starts with the given character. -/
def strHeadIs (c : Char) (s : String) : Bool :=
  match s.data with
  | x :: _ => x == c
  | [] => false

/-- Embedding of `Store::validate_path`: reject absolute paths, backslashes
and parent-directory components (`true` means the path is accepted). -/
def Store.validatePath (path : String) : Bool :=
  !(strHeadIs '/' path) && !(path.data.contains '\\') && !((splitStr '/' path).contains "..")

/-- Strictly ascending (and therefore duplicate-free) path order check of
`validate_snapshot` step 3. -/
def strictlyAscending : List Entry → Bool
  | [] => true
  | [_] => true
  | a :: b :: rest => strLt a.path b.path && strictlyAscending (b :: rest)

/-- Embedding of `Store::validate_snapshot`: existence, per-entry path
validity, strict ordering, and blob presence in both catalog and backend. -/
def Store.validateSnapshot (db : Db) (id : String) : Except String Unit :=
  if (assocGet db.snaps id).isNone then .error ("Snapshot not found: " ++ id)
  else
    let entries := Store.listSnapshotEntries db id
    if !(entries.all (fun e => Store.validatePath e.path)) then
      .error "invalid manifest path"
    else if !(strictlyAscending entries) then
      .error "Manifest not sorted or duplicate paths"
    else if entries.all (fun e => (assocGet db.blobs e.blob).isSome && assocHas db.blobFs e.blob) then
      .ok ()
    else .error "Snapshot corrupt: missing blob"

/-! ## Lease controller (embedding of `LeaseStore`, lease.rs)

The in-memory `HashMap<String, Lease>` is modelled as an association list
id → base fingerprint (the touched set is carried separately where needed);
`Fingerprint::compute` is a probe of the live repository, so the freshly
recomputed fingerprint enters as the explicit `current` argument. -/

/-- Outcome of `LeaseStore::check_lease`. -/
inductive LeaseCheck where
  | ok (current : Fingerprint)
  | stale (current : Fingerprint)
  | notFound
  deriving DecidableEq

/-- Embedding of `LeaseStore::check_lease`: recompute the fingerprint, then
compare with the stored base fingerprint; mismatch is the STALE_LEASE error
carrying the current fingerprint, an unknown id is "Lease not found". -/
def LeaseStore.checkLease (leases : List (String × Fingerprint)) (id : String)
    (current : Fingerprint) : LeaseCheck :=
  match assocGet leases id with
  | some base => if base ≠ current then .stale current else .ok current
  | none => .notFound

/-- Sorted-set insert (one element of `BTreeSet::extend`). -/
def setInsert (s : List String) (x : String) : List String :=
  match s with
  | [] => [x]
  | y :: rest =>
    if strLt x y then x :: y :: rest
    else if x == y then y :: rest
    else y :: setInsert rest x

/-- Embedding of `LeaseStore::touch_files`: union-insert into the touched
set (`BTreeSet::extend`). -/
def touchFiles (touched : List String) (files : List String) : List String :=
  files.foldl setInsert touched

/-- Embedding of `SnapshotTools::check_lease`: an explicit lease id is
validated (errors propagate), a missing one issues a fresh lease. The fresh
UUID enters as the `freshId` argument. -/
def SnapshotTools.checkLease (leases : List (String × Fingerprint)) (leaseId : Option String)
    (current : Fingerprint) (freshId : String) : Except LeaseCheck String :=
  match leaseId with
  | some lid =>
    match LeaseStore.checkLease leases lid current with
    | .ok _ => .ok lid
    | .stale fp => .error (.stale fp)
    | .notFound => .error .notFound
  | none => .ok freshId

/-! ## Worktree and snapshot tools (embedding of snapshot/tools.rs and
workspace/mod.rs)

Live-filesystem inputs (directory walks, file bytes, canonicalization) enter
as explicit arguments; subprocess engines (`git apply`) enter as function
parameters. -/

/-- UTF-8 validation and decoding of a byte list (Rust
`String::from_utf8` / `fs::read_to_string`), fuel-recursive so the kernel
can evaluate it. Rejects stray continuations, overlong forms, surrogates and
out-of-range code points. -/
def utf8DecodeGo : Nat → List Nat → List Char → Option (List Char)
  | _, [], acc => some acc.reverse
  | 0, _ :: _, _ => none
  | fuel + 1, b :: rest, acc =>
    if b < 0x80 then utf8DecodeGo fuel rest (Char.ofNat b :: acc)
    else if b < 0xC2 then none
    else if b < 0xE0 then
      match rest with
      | c1 :: r =>
        if 0x80 ≤ c1 && c1 < 0xC0 then
          utf8DecodeGo fuel r (Char.ofNat ((b - 0xC0) * 64 + (c1 - 0x80)) :: acc)
        else none
      | _ => none
    else if b < 0xF0 then
      match rest with
      | c1 :: c2 :: r =>
        if 0x80 ≤ c1 && c1 < 0xC0 && 0x80 ≤ c2 && c2 < 0xC0 then
          let n := (b - 0xE0) * 4096 + (c1 - 0x80) * 64 + (c2 - 0x80)
          if 0x800 ≤ n && !(0xD800 ≤ n && n < 0xE000) then
            utf8DecodeGo fuel r (Char.ofNat n :: acc)
          else none
        else none
      | _ => none
    else if b < 0xF5 then
      match rest with
      | c1 :: c2 :: c3 :: r =>
        if 0x80 ≤ c1 && c1 < 0xC0 && 0x80 ≤ c2 && c2 < 0xC0 && 0x80 ≤ c3 && c3 < 0xC0 then
          let n := (b - 0xF0) * 262144 + (c1 - 0x80) * 4096 + (c2 - 0x80) * 64 + (c3 - 0x80)
          if 0x10000 ≤ n && n < 0x110000 then
            utf8DecodeGo fuel r (Char.ofNat n :: acc)
          else none
        else none
      | _ => none
    else none

/-- UTF-8 decode entry point. -/
def utf8Decode (bs : List Nat) : Option String :=
  (utf8DecodeGo bs.length bs []).map String.mk

/-- Rust `str::lines`: split at `\n`, drop the optional final terminator,
strip one trailing `\r` per line. -/
def rustLines (s : String) : List String :=
  if s.data.isEmpty then []
  else
    let segs := splitCharsGo '\n' s.data []
    let segs := if segs.getLast? = some [] then segs.dropLast else segs
    segs.map (fun l => String.mk (if l.getLast? = some '\r' then l.dropLast else l))

/-- The per-file line loop of worktree `snapshot_grep`: scan lines in order,
record 1-based matching line numbers, stop as soon as the running total
reaches 100. Returns (matching lines, new total, truncated). -/
def grepLineLoop (re : String → Bool) :
    List String → Nat → Nat → List (Nat × String) × Nat × Bool
  | [], _, total => ([], total, false)
  | line :: rest, i, total =>
    if re line then
      let total' := total + 1
      if 100 ≤ total' then ([(i + 1, line)], total', true)
      else
        let (acc, t, tr) := grepLineLoop re rest (i + 1) total'
        ((i + 1, line) :: acc, t, tr)
    else grepLineLoop re rest (i + 1) total

/-- The worktree file loop of `snapshot_grep`: every file met by the walk is
pushed onto the candidate (touched) list first; files whose first 512 bytes
contain a NUL are skipped; remaining files must decode as UTF-8 (a decode
failure aborts the whole call, as `fs::read_to_string(path)?` does); the walk
stops once 100 match lines are collected. -/
def grepWorktreeGo (re : String → Bool) :
    List (String × List Nat) → List (String × List (Nat × String)) → List String → Nat →
    Except String (List (String × List (Nat × String)) × Bool × List String)
  | [], ms, cands, _ => .ok (ms, false, cands)
  | (rel, content) :: rest, ms, cands, total =>
    let cands' := cands ++ [rel]
    if (content.take 512).contains 0 then grepWorktreeGo re rest ms cands' total
    else
      match utf8Decode content with
      | none => .error "stream did not contain valid UTF-8"
      | some text =>
        let (fileLines, total', truncated) := grepLineLoop re (rustLines text) 0 total
        let ms' := if fileLines.isEmpty then ms else ms ++ [(rel, fileLines)]
        if truncated then .ok (ms', true, cands')
        else grepWorktreeGo re rest ms' cands' total'

/-- Embedding of the worktree branch of `SnapshotTools::snapshot_grep`. The
compiled regex is the predicate `re`; `files` is the candidate file set the
`walkdir` traversal yields under the requested paths (path and raw bytes, in
sorted walk order). On success the third component is the list passed to
`LeaseStore::touch_files`. -/
def snapshotGrepWorktree (re : String → Bool) (files : List (String × List Nat)) :
    Except String (List (String × List (Nat × String)) × Bool × List String) :=
  grepWorktreeGo re files [] [] 0

/-- Embedding of the `kind` computation of `SnapshotTools::snapshot_file`
(both modes): `content.contains(&0)` scans the whole byte content. -/
def snapshotFileKind (content : List Nat) : String :=
  if content.contains 0 then "binary" else "text"

/-- The spec's kind rule, written as the spec states it: binary iff the
first 512 bytes contain a NUL. -/
def specFileKind (content : List Nat) : String :=
  if (content.take 512).contains 0 then "binary" else "text"

/-- Embedding of `SnapshotTools::snapshot_changes`: validate the target
snapshot; when a base snapshot id is given, validate it and classify paths as
added / modified / deleted by comparing the two entry maps; sort the changes
by path; without a base the change list stays empty. -/
def SnapshotTools.snapshotChanges (db : Db) (snapshotId fromSnapshotId : Option String) :
    Except String (List (String × String)) :=
  match snapshotId with
  | none => .error "snapshot_id required"
  | some sid =>
    match Store.validateSnapshot db sid with
    | .error e => .error e
    | .ok _ =>
      match fromSnapshotId with
      | none => .ok []
      | some fsid =>
        match Store.validateSnapshot db fsid with
        | .error e => .error e
        | .ok _ =>
          let target := Store.listSnapshotEntries db sid
          let base := Store.listSnapshotEntries db fsid
          let added := (target.filter (fun e => !(base.any (fun b => b.path == e.path)))).map
            (fun e => (e.path, "added"))
          let modified := (target.filter (fun e => base.any
            (fun b => b.path == e.path && !(b.blob == e.blob)))).map
            (fun e => (e.path, "modified"))
          let deleted := (base.filter (fun b => !(target.any (fun e => e.path == b.path)))).map
            (fun b => (b.path, "deleted"))
          .ok (List.insertionSort (fun a b => strLe a.1 b.1 = true) (added ++ modified ++ deleted))

/-- Modelled from the spec: the paginated core of `snapshot.list`. The copy
of `snapshot_list` under src/ shows no `limit` / `offset` parameters and no
`total` field although tests/snapshot_pagination.rs calls them, so the
pagination step is modelled from the spec's words: entries are sorted
lexicographically, `total` is the pre-pagination count, `limit`/`offset`
select the page, and `truncated` reflects whether `offset + returned <
total`. Returns (page, total, truncated). -/
def snapshotListPage (entries : List Entry) (limit offset : Option Nat) :
    List Entry × Nat × Bool :=
  let sorted := List.insertionSort entryLe entries
  let total := sorted.length
  let off := offset.getD 0
  let page := match limit with
    | some l => (sorted.drop off).take l
    | none => sorted.drop off
  (page, total, decide (off + page.length < total))

/-! ### Path resolution

The live filesystem enters as an abstract model: which absolute paths exist,
and what `fs::canonicalize` returns on them (it follows symlinks, so the
result need not be the input). Paths are strings with `/` separators. -/

/-- The filesystem as seen by the resolvers. -/
structure FsModel where
  pathExists : String → Bool
  canonical : String → Option String

/-- Rust `Path::join` on string paths: an absolute right side replaces. -/
def pathJoin (base rel : String) : String :=
  if strHeadIs '/' rel then rel else base ++ "/" ++ rel

/-- Split a path into components at `/`. -/
def componentsOf (p : String) : List String := splitStr '/' p

/-- Component-wise path containment (Rust `Path::starts_with`). -/
def listLeads (pre full : List String) : Bool :=
  match pre, full with
  | [], _ => true
  | a :: as, b :: bs => a == b && listLeads as bs
  | _, [] => false

/-- Whether a string contains two consecutive dots (Rust
`str::contains("..")`, a substring test). -/
def hasDotDot (s : String) : Bool :=
  go s.data
where
  go : List Char → Bool
    | '.' :: '.' :: _ => true
    | _ :: rest => go rest
    | [] => false

/-- Rust `Path::parent` on the string model: drop the last component. -/
def parentOf (p : String) : Option String :=
  let cs := componentsOf p
  if cs.length ≤ 1 then none else some (strJoin "/" cs.dropLast)

/-- Rust `Path::file_name` on the string model: the last component. -/
def fileNameOf (p : String) : Option String :=
  match (componentsOf p).getLast? with
  | some n => if n = "" then none else some n
  | none => none

/-- Embedding of `SnapshotTools::resolve_path`: canonicalize the root;
reject `..` substrings and leading separators; canonical-containment check
only when the joined path exists, non-existent paths are returned unchecked. -/
def SnapshotTools.resolvePath (fs : FsModel) (repoRoot rel : String) : Except String String :=
  let path := pathJoin repoRoot rel
  match fs.canonical repoRoot with
  | none => .error "canonicalize repo root failed"
  | some canonRoot =>
    if hasDotDot rel || strHeadIs '/' rel then
      .error ("Invalid path (traversal or absolute): " ++ rel)
    else if fs.pathExists path then
      match fs.canonical path with
      | none => .error "canonicalize failed"
      | some c =>
        if !(listLeads (componentsOf canonRoot) (componentsOf c)) then
          .error "Path escapes repo root"
        else .ok c
    else .ok path

/-- The walk-up loop of `resolve_target_path`: climb to the nearest existing
ancestor (fuel-recursive on the component count). -/
def nearestExisting (fs : FsModel) : Nat → String → Option String
  | 0, _ => none
  | fuel + 1, current =>
    if fs.pathExists current then some current
    else
      match parentOf current with
      | some p => nearestExisting fs fuel p
      | none => none

/-- Embedding of `WorkspaceTools::resolve_target_path`: canonicalize existing
targets and check containment; for non-existent targets canonicalize the
parent (or walk to the nearest existing ancestor), verify containment, and
append the remaining name. No syntactic `..` / separator / backslash check. -/
def WorkspaceTools.resolveTargetPath (fs : FsModel) (repoRoot rel : String) :
    Except String String :=
  let path := pathJoin repoRoot rel
  match fs.canonical repoRoot with
  | none => .error "Failed to canonicalize repo root"
  | some canonRoot =>
    if fs.pathExists path then
      match fs.canonical path with
      | none => .error "Failed to canonicalize target path"
      | some c =>
        if !(listLeads (componentsOf canonRoot) (componentsOf c)) then
          .error ("Path escapes repo root: " ++ rel)
        else .ok c
    else
      match parentOf path with
      | none => .error "Invalid path"
      | some parent =>
        if fs.pathExists parent then
          match fs.canonical parent with
          | none => .error "Failed to canonicalize parent"
          | some cp =>
            if !(listLeads (componentsOf canonRoot) (componentsOf cp)) then
              .error ("Parent path escapes repo root: " ++ rel)
            else
              match fileNameOf path with
              | none => .error "Invalid filename"
              | some name => .ok (cp ++ "/" ++ name)
        else
          match nearestExisting fs (componentsOf parent).length parent with
          | none => .error "Cannot verify path safety (root not found)"
          | some base =>
            match fs.canonical base with
            | none => .error "canonicalize failed"
            | some cb =>
              if !(listLeads (componentsOf canonRoot) (componentsOf cb)) then
                .error ("Path escapes repo root: " ++ rel)
              else .ok path

/-! ### Snapshot-mode apply_patch (workspace/mod.rs) -/

/-- Materialize a snapshot's manifest into scratch contents (step 1/2 of
snapshot-mode `apply_patch`): read every entry's blob from the store. -/
def materializeEntries (db : Db) : List Entry → Option (List (String × List Nat))
  | [] => some []
  | e :: rest =>
    match Store.getBlob db e.blob with
    | none => none
    | some content =>
      match materializeEntries db rest with
      | none => none
      | some files => some ((e.path, content) :: files)

/-- Ingest the post-patch scratch contents (step 5): `put_blob` every file
and accumulate manifest entries in walk order. -/
def ingestFiles : Db → List (String × List Nat) → List Entry × Db
  | db, [] => ([], db)
  | db, (path, content) :: rest =>
    let (hash, db') := Store.putBlob db content
    let (entries, db'') := ingestFiles db' rest
    (⟨hash, path, content.length⟩ :: entries, db'')

/-- Embedding of the snapshot-mode branch of `WorkspaceTools::apply_patch`.
The external `git apply` subprocess is the function `engine`: given the patch
text and the scratch contents it returns the post-patch contents, or `none`
on failure. The live repository is never an input: the new snapshot id is
computed from the base snapshot's stored `fingerprint_json` and the
post-patch manifest alone. Returns the effective snapshot id (the original
id when the engine fails, as the code returns) and the new durable state. -/
def WorkspaceTools.applyPatchSnapshot
    (engine : String → List (String × List Nat) → Option (List (String × List Nat)))
    (db : Db) (snapshotId : Option String) (patch : String) : Except String (String × Db) :=
  match snapshotId with
  | none => .error "snapshot_id required"
  | some sid =>
    match Store.validateSnapshot db sid with
    | .error e => .error e
    | .ok _ =>
      match Store.getSnapshotInfo db sid with
      | none => .error ("Snapshot metadata not found for " ++ sid)
      | some info =>
        match materializeEntries db (Store.listSnapshotEntries db sid) with
        | none => .error "Missing blob"
        | some files =>
          match engine patch files with
          | none => .ok (sid, db)
          | some files' =>
            let (newEntries, db1) := ingestFiles db files'
            let m := Manifest.new newEntries
            let newId := m.computeSnapshotId info.fingerprintJson
            let patchHash := "sha256:" ++ hexEncode (sha256 (utf8Bytes patch))
            match Store.putSnapshot db1 newId info.repoRoot info.headSha info.fingerprintJson m
                (some sid) (some patchHash) with
            | .error e => .error e
            | .ok db2 => .ok (newId, db2)

/-! ### Operation sequences (for the refcount conservation claim) -/

/-- One durable operation of a creation/overwrite sequence. -/
inductive StoreOp where
  | putBlob (data : List Nat)
  | putSnapshot (id repoRoot headSha fingerprintJson : String) (m : Manifest)
  deriving DecidableEq

/-- Run one operation; a failed (rolled-back) snapshot write leaves the
durable state unchanged. -/
def runOp (db : Db) : StoreOp → Db
  | .putBlob data => (Store.putBlob db data).2
  | .putSnapshot id repoRoot headSha fingerprintJson m =>
    match Store.putSnapshot db id repoRoot headSha fingerprintJson m none none with
    | .ok db' => db'
    | .error _ => db

/-- Run a sequence of operations from a state. -/
def runOps (ops : List StoreOp) (db : Db) : Db :=
  ops.foldl runOp db

/-- The number of manifest-entry rows (over all stored snapshots) that
reference a blob hash, counted with multiplicity. -/
def entryRefs (db : Db) (h : String) : Nat :=
  db.manifestEntries.countP (fun r => r.blobHash == h)

/-- The number of stored snapshots whose manifest references a blob hash
(each snapshot counted once) — the quantity the spec's conservation rule
names. -/
def snapRefs (db : Db) (h : String) : Nat :=
  db.snaps.countP (fun p => db.manifestEntries.any (fun r => r.sid == p.1 && r.blobHash == h))

/-- Refcount conservation invariant, per-entry form: every catalog row's
refcount equals the number of manifest-entry rows referencing its hash. -/
def refcountInv (db : Db) : Prop :=
  ∀ p ∈ db.blobs, p.2.refcount = entryRefs db p.1

/-- Structural well-formedness: entry rows belong to stored snapshots, and
every referenced blob has a catalog row. -/
def dbWf (db : Db) : Prop :=
  (∀ r ∈ db.manifestEntries, (assocGet db.snaps r.sid).isSome) ∧
  (∀ r ∈ db.manifestEntries, assocHas db.blobs r.blobHash = true)

deriving instance DecidableEq for Except

/-! ## Concrete inputs used by witnesses and counterexamples -/

/-- The spec's S1 scenario fingerprint: head "H", empty index, hash of empty
status bytes. -/
def fpS1 : Fingerprint :=
  ⟨"H", "", "sha256:e3b0c44298fc1c149afbf4c8996fb92427ae41e4649b934ca495991b7852b855"⟩

/-- The spec's S1 scenario manifest: one entry for path "a". -/
def mS1 : Manifest :=
  ⟨[⟨"sha256:2cf24dba5fb0a30e26e83b2ac5b9e29e1b161e5c1fa7425e73043362938b9824", "a", 5⟩]⟩

/-- A baseline fingerprint for lease scenarios. -/
def fpA : Fingerprint := ⟨"H1", "I1", "S1"⟩

/-- A changed fingerprint (different head) for lease scenarios. -/
def fpB : Fingerprint := ⟨"H2", "I1", "S1"⟩

/-- A store holding one valid snapshot `snap1` with a single entry. -/
def dbOneSnap : Db :=
  ⟨[("sha256:aa", ⟨5, 1⟩)],
   [("snap1", ⟨"/r", "h", "\x7b\x7d", "mh", ⟨[⟨"sha256:aa", "a.txt", 5⟩]⟩, none, none⟩)],
   [⟨"snap1", "a.txt", "sha256:aa", 5⟩],
   [("sha256:aa", [104, 101, 108, 108, 111])]⟩

/-- A catalog holding one blob row (refcount 0) and its backend bytes. -/
def dbBlobOnly : Db := ⟨[("sha256:aa", ⟨5, 0⟩)], [], [], [("sha256:aa", [1, 2, 3, 4, 5])]⟩

/-- A manifest referencing a blob absent from the catalog. -/
def mMissing : Manifest := ⟨[⟨"sha256:bb", "a", 5⟩]⟩

/-- A one-entry manifest over the catalogued blob. -/
def mOk : Manifest := ⟨[⟨"sha256:aa", "a", 5⟩]⟩

/-- The hash `put_blob` assigns to the bytes `[1,2,3,4,5]`. -/
def c4Hash : String := (Store.putBlob Db.empty [1, 2, 3, 4, 5]).1

/-- A manifest whose two paths reference the same blob. -/
def mDup : Manifest := ⟨[⟨c4Hash, "a", 5⟩, ⟨c4Hash, "b", 5⟩]⟩

/-- Creation sequence: insert a blob, then create one snapshot whose manifest
references that blob under two paths. -/
def c4Ops : List StoreOp :=
  [.putBlob [1, 2, 3, 4, 5], .putSnapshot "s1" "/r" "h" "\x7b\x7d" mDup]

/-- The store after running `c4Ops` from the empty state. -/
def c4Db : Db := runOps c4Ops Db.empty

/-- A concrete committed snapshot write over `dbBlobOnly`. -/
def c4bRun : Except String Db := Store.putSnapshot dbBlobOnly "s" "/r" "h" "fp" mOk none none

/-- The state after that committed write. -/
def c4bDb : Db :=
  match c4bRun with
  | .ok d => d
  | .error _ => dbBlobOnly

/-- 100 lines "m": a worktree file producing 100 grep matches. -/
def c7MatchBytes : List Nat := (List.replicate 100 [109, 10]).flatten

/-- Candidate set where truncation hits inside the first file. -/
def c7Files : List (String × List Nat) := [("a.txt", c7MatchBytes), ("b.txt", [104])]

/-- A compiled-regex predicate matching exactly the line "m". -/
def c7Re : String → Bool := fun l => l == "m"

/-- A small candidate set (match, binary, no-match) with no truncation. -/
def c7SmallFiles : List (String × List Nat) :=
  [("a.txt", [109]), ("bin.dat", [0, 1]), ("c.txt", [99])]

/-- Truncation flag and candidate list of a grep result (projection used to
state concrete facts about runs). -/
def grepOutcome (r : Except String (List (String × List (Nat × String)) × Bool × List String)) :
    Bool × List String :=
  match r with
  | .ok (_, tr, cands) => (tr, cands)
  | .error _ => (false, [])

/-- A 513-byte content whose only NUL sits after the first 512 bytes. -/
def c8Content : List Nat := List.replicate 512 1 ++ [0]

/-- A filesystem where `/repo/a\b` (a name with a backslash) and
`/repo/a/../b` exist and canonicalize inside the root. -/
def fsC6 : FsModel :=
  ⟨fun p => p == "/repo" || p == "/repo/a\\b" || p == "/repo/a" || p == "/repo/b" ||
      p == "/repo/a/../b",
   fun p =>
    if p == "/repo" then some "/repo"
    else if p == "/repo/a\\b" then some "/repo/a\\b"
    else if p == "/repo/a/../b" then some "/repo/b"
    else if p == "/repo/b" then some "/repo/b"
    else none⟩

/-- A filesystem where `/repo/link` is a symlink canonicalizing outside the
root. -/
def fsEsc : FsModel :=
  ⟨fun p => p == "/repo" || p == "/repo/link",
   fun p =>
    if p == "/repo" then some "/repo"
    else if p == "/repo/link" then some "/outside" else none⟩

/-- A store holding the base snapshot for the patch-idempotence witness. -/
def dbC5 : Db :=
  ⟨[("sha256:aa", ⟨1, 1⟩)],
   [("base", ⟨"/r", "h", "fp-json", "mh", ⟨[⟨"sha256:aa", "a.txt", 1⟩]⟩, none, none⟩)],
   [⟨"base", "a.txt", "sha256:aa", 1⟩],
   [("sha256:aa", [104])]⟩

/-- A deterministic apply engine for the witness: keep the materialized files
unchanged (the patch is a no-op on bytes, but re-ingestion re-hashes them). -/
def engC5 : String → List (String × List Nat) → Option (List (String × List Nat)) :=
  fun _ files => some files

/-- First run of snapshot-mode apply_patch in the witness scenario. -/
def c5Run : Except String (String × Db) :=
  WorkspaceTools.applyPatchSnapshot engC5 dbC5 (some "base") "P"

/-- The derived snapshot id of the first run. -/
def c5Id : String :=
  match c5Run with
  | .ok p => p.1
  | .error _ => ""

/-- The durable state after the first run. -/
def c5Db1 : Db :=
  match c5Run with
  | .ok p => p.2
  | .error _ => dbC5

/-! ## Order lemmas for the byte-wise string order -/

/-- `charListLt` is asymmetric. -/
theorem charListLt_asymm : ∀ (a b : List Char), charListLt a b = true → charListLt b a = false := by
  intro a
  induction a with
  | nil => intro b; cases b <;> simp [charListLt]
  | cons x xs ih =>
    intro b; cases b with
    | nil => simp [charListLt]
    | cons y ys =>
      simp only [charListLt]
      rcases Nat.lt_trichotomy x.toNat y.toNat with h | h | h
      · simp [h, Nat.lt_asymm h]
      · simp only [h, Nat.lt_irrefl, if_false]
        exact ih ys
      · simp [h, Nat.lt_asymm h]

/-- `charListLt` is transitive. -/
theorem charListLt_trans :
    ∀ (a b c : List Char), charListLt a b = true → charListLt b c = true →
      charListLt a c = true := by
  intro a
  induction a with
  | nil =>
    intro b c hab hbc
    cases b with
    | nil => simp [charListLt] at hab
    | cons y ys =>
      cases c with
      | nil => simp [charListLt] at hbc
      | cons z zs => simp [charListLt]
  | cons x xs ih =>
    intro b c hab hbc
    cases b with
    | nil => simp [charListLt] at hab
    | cons y ys =>
      cases c with
      | nil => simp [charListLt] at hbc
      | cons z zs =>
        simp only [charListLt] at hab hbc ⊢
        rcases Nat.lt_trichotomy x.toNat y.toNat with h1 | h1 | h1 <;>
          rcases Nat.lt_trichotomy y.toNat z.toNat with h2 | h2 | h2 <;>
          simp_all [Nat.lt_asymm, Nat.lt_irrefl] <;>
          first
            | omega
            | (exact ih ys zs hab hbc)

/-- Characters with no strict order either way are equal, so `charListLt` is
connected. -/
theorem charListLt_conn :
    ∀ (a b : List Char), charListLt a b = false → charListLt b a = false → a = b := by
  intro a
  induction a with
  | nil => intro b hab _; cases b with
    | nil => rfl
    | cons y ys => simp [charListLt] at hab
  | cons x xs ih =>
    intro b hab hba
    cases b with
    | nil => simp [charListLt] at hba
    | cons y ys =>
      simp only [charListLt] at hab hba
      rcases Nat.lt_trichotomy x.toNat y.toNat with h | h | h
      · simp [h] at hab
      · have hx : x = y := Char.ofNat_toNat x ▸ Char.ofNat_toNat y ▸ congrArg Char.ofNat h
        simp only [h, Nat.lt_irrefl, if_false] at hab hba
        rw [hx, ih ys hab hba]
      · simp [h] at hba

/-- `entryLe` is total. -/
theorem entryLe_total (a b : Entry) : entryLe a b ∨ entryLe b a := by
  unfold entryLe strLe strLt
  cases h : charListLt b.path.data a.path.data
  · left; simp
  · right; simp [charListLt_asymm _ _ h]

/-- `entryLe` is transitive. -/
theorem entryLe_trans (a b c : Entry) (h1 : entryLe a b) (h2 : entryLe b c) : entryLe a c := by
  unfold entryLe strLe strLt at *
  simp only [Bool.not_eq_true'] at h1 h2 ⊢
  cases hca : charListLt c.path.data a.path.data
  · rfl
  · exfalso
    cases hbc : charListLt b.path.data c.path.data
    · have hbceq := charListLt_conn _ _ hbc h2
      rw [← hbceq] at hca
      simp [h1] at hca
    · have := charListLt_trans _ _ _ hbc hca
      simp [h1] at this

/-! ## Sanity checks of the hash embedding -/

/-- SHA-256 of the empty input is the well-known empty-input digest. -/
theorem sha256_empty :
    hexEncode (sha256 []) = "e3b0c44298fc1c149afbf4c8996fb92427ae41e4649b934ca495991b7852b855" := by
  decide

/-- SHA-256 of "abc" is the FIPS 180-4 sample digest. -/
theorem sha256_abc :
    hexEncode (sha256 [97, 98, 99]) =
      "ba7816bf8f01cfea414140de5dae2223b00361a396177a9cb410ff61f20015ad" := by
  decide

/-! ## Claims -/

/-- C1: for every fingerprint and manifest, the snapshot identifier computed
by `Manifest::compute_snapshot_id` on the fingerprint's canonical JSON equals
`"sha256:" + hex(SHA256(canonical(fingerprint) || 0x0A || canonical(manifest)))`
— the spec's identity rule with its mandatory 0x0A separator — and the
identifier is a pure function of the two inputs: identical inputs yield
byte-equal ids. -/
theorem snapshot_id_identity_rule (fp : Fingerprint) (m : Manifest) :
    m.computeSnapshotId fp.toCanonicalJson = specSnapshotId fp m ∧
    (∀ (fp' : Fingerprint) (m' : Manifest), fp = fp' → m = m' →
      m.computeSnapshotId fp.toCanonicalJson = m'.computeSnapshotId fp'.toCanonicalJson) := by
  refine ⟨rfl, ?_⟩
  rintro fp' m' rfl rfl
  rfl

/-- Witness for C1 at the spec's S1 scenario inputs. -/
theorem snapshot_id_identity_rule_witness :
    mS1.computeSnapshotId fpS1.toCanonicalJson = specSnapshotId fpS1 mS1 ∧
    mS1.computeSnapshotId fpS1.toCanonicalJson = mS1.computeSnapshotId fpS1.toCanonicalJson :=
  ⟨(snapshot_id_identity_rule fpS1 mS1).1,
   (snapshot_id_identity_rule fpS1 mS1).2 fpS1 mS1 rfl rfl⟩

/-- C2: for every lease id presented to a worktree-mode call: a known lease
whose base fingerprint differs from the freshly recomputed one fails with the
stale-lease error carrying the current fingerprint (also through the tool
wrapper); equal fingerprints proceed; an unknown lease id fails with
not-found. -/
theorem check_lease_contract (leases : List (String × Fingerprint)) (id : String)
    (current : Fingerprint) (freshId : String) :
    (∀ base, assocGet leases id = some base → base ≠ current →
      LeaseStore.checkLease leases id current = .stale current) ∧
    (∀ base, assocGet leases id = some base → base = current →
      LeaseStore.checkLease leases id current = .ok current) ∧
    (assocGet leases id = none → LeaseStore.checkLease leases id current = .notFound) ∧
    (∀ base, assocGet leases id = some base → base ≠ current →
      SnapshotTools.checkLease leases (some id) current freshId = .error (.stale current)) ∧
    (assocGet leases id = none →
      SnapshotTools.checkLease leases (some id) current freshId = .error .notFound) := by
  refine ⟨?_, ?_, ?_, ?_, ?_⟩
  · intro base hb hne
    simp [LeaseStore.checkLease, hb, hne]
  · intro base hb he
    simp [LeaseStore.checkLease, hb, he]
  · intro hn
    simp [LeaseStore.checkLease, hn]
  · intro base hb hne
    simp [SnapshotTools.checkLease, LeaseStore.checkLease, hb, hne]
  · intro hn
    simp [SnapshotTools.checkLease, LeaseStore.checkLease, hn]

/-- Witness for C2: a lease issued at `fpA`, checked against `fpB` (stale),
against `fpA` (ok), and an unknown id (not found). -/
theorem check_lease_contract_witness :
    LeaseStore.checkLease [("L", fpA)] "L" fpB = .stale fpB ∧
    LeaseStore.checkLease [("L", fpA)] "L" fpA = .ok fpA ∧
    LeaseStore.checkLease [("L", fpA)] "M" fpB = .notFound ∧
    SnapshotTools.checkLease [("L", fpA)] (some "L") fpB "F" = .error (.stale fpB) ∧
    SnapshotTools.checkLease [("L", fpA)] (some "M") fpB "F" = .error .notFound :=
  ⟨(check_lease_contract [("L", fpA)] "L" fpB "F").1 fpA (by decide) (by decide),
   (check_lease_contract [("L", fpA)] "L" fpA "F").2.1 fpA (by decide) (by decide),
   (check_lease_contract [("L", fpA)] "M" fpB "F").2.2.1 (by decide),
   (check_lease_contract [("L", fpA)] "L" fpB "F").2.2.2.1 fpA (by decide) (by decide),
   (check_lease_contract [("L", fpA)] "M" fpB "F").2.2.2.2 (by decide)⟩

/-- C8 counterexample: a 513-byte file whose only NUL byte sits beyond the
first 512 bytes is reported `binary` by the code, while the claimed
first-512-bytes rule says `text`. -/
theorem snapshot_file_kind_counterexample :
    ¬(snapshotFileKind c8Content = "binary" ↔ (c8Content.take 512).contains 0 = true) := by
  decide

/-- C8 amended: in both modes the reported kind is `binary` iff the file's
whole content contains a NUL byte (the scan is not limited to the first 512
bytes), and `text` otherwise. -/
theorem snapshot_file_kind_whole_content (content : List Nat) :
    (snapshotFileKind content = "binary" ↔ 0 ∈ content) ∧
    (snapshotFileKind content = "text" ↔ 0 ∉ content) := by
  have hc : (content.contains 0 = true) ↔ 0 ∈ content := by
    simp [List.contains, List.elem_iff]
  unfold snapshotFileKind
  by_cases h : (0 : Nat) ∈ content
  · rw [if_pos (hc.mpr h)]
    refine ⟨⟨fun _ => h, fun _ => rfl⟩, ⟨fun hbt => ?_, fun hn => absurd h hn⟩⟩
    exact absurd hbt (by decide)
  · rw [if_neg (fun hct => h (hc.mp hct))]
    refine ⟨⟨fun ht => ?_, fun hm => absurd hm h⟩, ⟨fun _ => h, fun _ => rfl⟩⟩
    exact absurd ht (by decide)

/-- C10: when `from_snapshot_id` is absent, `snapshot.changes` on a valid
target snapshot succeeds and returns an empty change list. -/
theorem snapshot_changes_no_base (db : Db) (sid : String)
    (h : Store.validateSnapshot db sid = .ok ()) :
    SnapshotTools.snapshotChanges db (some sid) none = .ok [] := by
  simp [SnapshotTools.snapshotChanges, h]

/-- Witness for C10 on a concrete one-snapshot store. -/
theorem snapshot_changes_no_base_witness :
    SnapshotTools.snapshotChanges dbOneSnap (some "snap1") none = .ok [] :=
  snapshot_changes_no_base dbOneSnap "snap1" (by rfl)

/-- C9: in both modes the returned entries are sorted lexicographically by
path, `total` is the pre-pagination count, `limit`/`offset` select the page
(a contiguous slice of the sorted entries), and `truncated` is true exactly
when `offset + returned < total` (pagination modelled from the spec, see
`snapshotListPage`). -/
theorem snapshot_list_pagination (entries : List Entry) (limit offset : Option Nat) :
    (snapshotListPage entries limit offset).2.1 = entries.length ∧
    List.Pairwise entryLe (snapshotListPage entries limit offset).1 ∧
    (snapshotListPage entries limit offset).1 =
      ((List.insertionSort entryLe entries).drop (offset.getD 0)).take
        (limit.getD entries.length) ∧
    ((snapshotListPage entries limit offset).2.2 = true ↔
      offset.getD 0 + (snapshotListPage entries limit offset).1.length <
        (snapshotListPage entries limit offset).2.1) := by
  haveI : IsTotal Entry entryLe := ⟨entryLe_total⟩
  haveI : IsTrans Entry entryLe := ⟨entryLe_trans⟩
  have hlen : (List.insertionSort entryLe entries).length = entries.length :=
    (List.perm_insertionSort entryLe entries).length_eq
  have hsorted : List.Pairwise entryLe (List.insertionSort entryLe entries) :=
    List.sorted_insertionSort entryLe entries
  cases limit with
  | none =>
    refine ⟨by simp [snapshotListPage, hlen], ?_, ?_, by simp [snapshotListPage, hlen]⟩
    · exact List.Pairwise.sublist (List.drop_sublist _ _) hsorted
    · simp only [snapshotListPage, Option.getD_none]
      exact (List.take_of_length_le (by simp [hlen])).symm
  | some l =>
    refine ⟨by simp [snapshotListPage, hlen], ?_, by simp [snapshotListPage], by
      simp [snapshotListPage, hlen]⟩
    · exact List.Pairwise.sublist
        ((List.take_sublist _ _).trans (List.drop_sublist _ _)) hsorted

/-- C6 counterexample: both resolvers accept the relative path `a\b`, which
contains a backslash, and `resolve_target_path` accepts `a/../b`, which
contains a parent-directory component, when the joined paths exist and
canonicalize inside the root — the claimed syntactic rejections do not
happen. -/
theorem resolve_path_counterexample :
    SnapshotTools.resolvePath fsC6 "/repo" "a\\b" = .ok "/repo/a\\b" ∧
    "a\\b".data.contains '\\' = true ∧
    WorkspaceTools.resolveTargetPath fsC6 "/repo" "a\\b" = .ok "/repo/a\\b" ∧
    WorkspaceTools.resolveTargetPath fsC6 "/repo" "a/../b" = .ok "/repo/b" ∧
    (splitStr '/' "a/../b").contains ".." = true := by
  decide

/-- C6 amended: the snapshot-tools resolver rejects every relative path
containing `..` (as a substring) or a leading separator; both resolvers
reject an existing path whose canonical form lies outside the canonical
root; and for a non-existent target whose parent also does not exist the
workspace resolver rejects when the nearest existing ancestor canonicalizes
outside the root. (Backslashes are not rejected, the workspace resolver
performs no syntactic `..` check, and the snapshot-tools resolver returns
non-existent joined paths without an ancestor check.) -/
theorem resolve_path_checks (fs : FsModel) (root rel cr : String)
    (hroot : fs.canonical root = some cr) :
    (hasDotDot rel = true ∨ strHeadIs '/' rel = true →
      SnapshotTools.resolvePath fs root rel =
        .error ("Invalid path (traversal or absolute): " ++ rel)) ∧
    (∀ c, hasDotDot rel = false → strHeadIs '/' rel = false →
      fs.pathExists (pathJoin root rel) = true →
      fs.canonical (pathJoin root rel) = some c →
      listLeads (componentsOf cr) (componentsOf c) = false →
      SnapshotTools.resolvePath fs root rel = .error "Path escapes repo root") ∧
    (∀ c, fs.pathExists (pathJoin root rel) = true →
      fs.canonical (pathJoin root rel) = some c →
      listLeads (componentsOf cr) (componentsOf c) = false →
      WorkspaceTools.resolveTargetPath fs root rel =
        .error ("Path escapes repo root: " ++ rel)) ∧
    (∀ parent base cb, fs.pathExists (pathJoin root rel) = false →
      parentOf (pathJoin root rel) = some parent →
      fs.pathExists parent = false →
      nearestExisting fs (componentsOf parent).length parent = some base →
      fs.canonical base = some cb →
      listLeads (componentsOf cr) (componentsOf cb) = false →
      WorkspaceTools.resolveTargetPath fs root rel =
        .error ("Path escapes repo root: " ++ rel)) := by
  refine ⟨?_, ?_, ?_, ?_⟩
  · intro hrej
    have hcond : (hasDotDot rel || strHeadIs '/' rel) = true := by
      rcases hrej with h | h <;> simp [h]
    simp [SnapshotTools.resolvePath, hroot, hcond]
  · intro c hdd hsl hex hcanon hout
    simp [SnapshotTools.resolvePath, hroot, hdd, hsl, hex, hcanon, hout]
  · intro c hex hcanon hout
    simp [WorkspaceTools.resolveTargetPath, hroot, hex, hcanon, hout]
  · intro parent base cb hnex hpar hpnex hnear hcanon hout
    simp [WorkspaceTools.resolveTargetPath, hroot, hnex, hpar, hpnex, hnear, hcanon, hout]

/-- Witness for C6's amended behaviors: `../x` is rejected syntactically; an
existing symlink `/repo/link` canonicalizing to `/outside` is rejected by
both resolvers; a deep non-existent target under that symlink is rejected by
the workspace resolver's walk-up check. -/
theorem resolve_path_checks_witness :
    SnapshotTools.resolvePath fsEsc "/repo" "../x" =
      .error ("Invalid path (traversal or absolute): ../x") ∧
    SnapshotTools.resolvePath fsEsc "/repo" "link" = .error "Path escapes repo root" ∧
    WorkspaceTools.resolveTargetPath fsEsc "/repo" "link" =
      .error ("Path escapes repo root: link") ∧
    WorkspaceTools.resolveTargetPath fsEsc "/repo" "link/sub/new.txt" =
      .error ("Path escapes repo root: link/sub/new.txt") :=
  ⟨(resolve_path_checks fsEsc "/repo" "../x" "/repo" (by decide)).1 (Or.inl (by decide)),
   (resolve_path_checks fsEsc "/repo" "link" "/repo" (by decide)).2.1 "/outside"
     (by decide) (by decide) (by decide) (by decide) (by decide),
   (resolve_path_checks fsEsc "/repo" "link" "/repo" (by decide)).2.2.1 "/outside"
     (by decide) (by decide) (by decide),
   (resolve_path_checks fsEsc "/repo" "link/sub/new.txt" "/repo" (by decide)).2.2.2
     "/repo/link/sub" "/repo/link" "/outside"
     (by decide) (by decide) (by decide) (by decide) (by decide) (by decide)⟩

/-- Inserting an element keeps existing members. -/
theorem setInsert_mem_of_mem {p : String} {s : List String} (y : String) (h : p ∈ s) :
    p ∈ setInsert s y := by
  induction s with
  | nil => cases h
  | cons z rest ih =>
    simp only [setInsert]
    by_cases h1 : strLt y z = true
    · simp [h1]
      rcases List.mem_cons.mp h with h' | h'
      · right; left; exact h'
      · right; right; exact h'
    · simp only [h1, if_false, Bool.not_eq_true] at *
      rw [if_neg (by simp [h1])]
      by_cases h2 : (y == z) = true
      · rw [if_pos h2]; exact h
      · rw [if_neg h2]
        rcases List.mem_cons.mp h with h' | h'
        · exact List.mem_cons.mpr (Or.inl h')
        · exact List.mem_cons.mpr (Or.inr (ih h'))

/-- The inserted element is a member. -/
theorem setInsert_mem_self (s : List String) (y : String) : y ∈ setInsert s y := by
  induction s with
  | nil => simp [setInsert]
  | cons z rest ih =>
    simp only [setInsert]
    by_cases h1 : strLt y z = true
    · simp [h1]
    · rw [if_neg (by simp [h1])]
      by_cases h2 : (y == z) = true
      · rw [if_pos h2]
        exact List.mem_cons.mpr (Or.inl (eq_of_beq h2))
      · rw [if_neg h2]
        exact List.mem_cons.mpr (Or.inr ih)

/-- `touch_files` keeps existing members of the touched set. -/
theorem touchFiles_mem_of_mem {p : String} :
    ∀ (l s : List String), p ∈ s → p ∈ touchFiles s l := by
  intro l
  induction l with
  | nil => intro s h; exact h
  | cons y rest ih =>
    intro s h
    exact ih (setInsert s y) (setInsert_mem_of_mem y h)

/-- `touch_files` adds every file of the supplied list to the touched set. -/
theorem touchFiles_mem_of_mem_list {p : String} :
    ∀ (l s : List String), p ∈ l → p ∈ touchFiles s l := by
  intro l
  induction l with
  | nil => intro s h; cases h
  | cons y rest ih =>
    intro s h
    rcases List.mem_cons.mp h with h' | h'
    · subst h'
      exact touchFiles_mem_of_mem rest (setInsert s p) (setInsert_mem_self s p)
    · exact ih (setInsert s y) h'

/-- On a non-truncated run the grep file loop's candidate list is the prior
list plus every walked file, in order. -/
theorem grepWorktreeGo_candidates (re : String → Bool) :
    ∀ (files : List (String × List Nat)) (ms0 : List (String × List (Nat × String)))
      (cands0 : List String) (total : Nat) (ms : List (String × List (Nat × String)))
      (cands : List String),
      grepWorktreeGo re files ms0 cands0 total = .ok (ms, false, cands) →
      cands = cands0 ++ files.map Prod.fst := by
  intro files
  induction files with
  | nil =>
    intro ms0 cands0 total ms cands h
    simp only [grepWorktreeGo, Except.ok.injEq, Prod.mk.injEq] at h
    simp [← h.2.2]
  | cons f rest ih =>
    obtain ⟨rel, content⟩ := f
    intro ms0 cands0 total ms cands h
    simp only [grepWorktreeGo] at h
    cases hbin : (content.take 512).contains 0 with
    | true =>
      rw [if_pos (by rw [hbin])] at h
      have hc := ih _ _ _ _ _ h
      simp [hc, List.append_assoc]
    | false =>
      rw [if_neg (by rw [hbin]; simp)] at h
      cases hdec : utf8Decode content with
      | none => simp only [hdec] at h; cases h
      | some text =>
        simp only [hdec] at h
        rcases hgl : grepLineLoop re (rustLines text) 0 total with ⟨fl, tot2, tr⟩
        rw [hgl] at h
        cases tr with
        | true => simp at h
        | false =>
          simp only at h
          have hc := ih _ _ _ _ _ h
          simp [hc, List.append_assoc]

/-- C7 counterexample: a run whose 100-match cap is reached inside the first
candidate file stops the walk; the second candidate file (`b.txt`, NUL-free,
in the full search set) is never added to the touched list. -/
theorem grep_touch_counterexample :
    grepOutcome (snapshotGrepWorktree c7Re c7Files) = (true, ["a.txt"]) ∧
    "b.txt" ∈ c7Files.map Prod.fst ∧
    "b.txt" ∉ (grepOutcome (snapshotGrepWorktree c7Re c7Files)).2 := by
  decide

/-- C7 amended: on a worktree grep run that completes without hitting the
100-match cap, the candidate list passed to `touch_files` is exactly the
full walked search set (including files cited by no match and binary files),
and every one of those paths is a member of the updated touched set; when
the cap is reached mid-walk, only the candidates walked before the stop are
touched. -/
theorem grep_touches_all_candidates (re : String → Bool)
    (files : List (String × List Nat)) (ms : List (String × List (Nat × String)))
    (cands touched : List String)
    (h : snapshotGrepWorktree re files = .ok (ms, false, cands)) :
    cands = files.map Prod.fst ∧
    ∀ p ∈ files.map Prod.fst, p ∈ touchFiles touched cands := by
  have hc := grepWorktreeGo_candidates re files [] [] 0 ms cands h
  simp only [List.nil_append] at hc
  exact ⟨hc, fun p hp => touchFiles_mem_of_mem_list cands touched (hc ▸ hp)⟩

/-- Witness for C7's amended statement: a three-candidate walk (match file,
binary file, no-match file) touches all three. -/
theorem grep_touches_all_candidates_witness :
    ["a.txt", "bin.dat", "c.txt"] = c7SmallFiles.map Prod.fst ∧
    ∀ p ∈ c7SmallFiles.map Prod.fst, p ∈ touchFiles [] ["a.txt", "bin.dat", "c.txt"] :=
  grep_touches_all_candidates c7Re c7SmallFiles [("a.txt", [(1, "m")])]
    ["a.txt", "bin.dat", "c.txt"] [] (by decide)

/-! ## Association-list and refcount-loop lemmas -/

/-- `refIncOne` preserves keys. -/
theorem assocHas_refIncOne (h k : String) (blobs : List (String × BlobRow)) :
    assocHas (refIncOne h blobs) k = assocHas blobs k := by
  induction blobs with
  | nil => rfl
  | cons p rest ih =>
    have hfst :
        (if (p.1 == h) = true then (p.1, { p.2 with refcount := p.2.refcount + 1 }) else p).1 =
          p.1 := by
      split <;> rfl
    simp only [refIncOne, List.map_cons, assocHas, List.any_cons] at ih ⊢
    rw [hfst, ih]

/-- `refDecOne` preserves keys. -/
theorem assocHas_refDecOne (h k : String) (blobs : List (String × BlobRow)) :
    assocHas (refDecOne h blobs) k = assocHas blobs k := by
  induction blobs with
  | nil => rfl
  | cons p rest ih =>
    have hfst :
        (if (p.1 == h) = true then (p.1, { p.2 with refcount := p.2.refcount - 1 }) else p).1 =
          p.1 := by
      split <;> rfl
    simp only [refDecOne, List.map_cons, assocHas, List.any_cons] at ih ⊢
    rw [hfst, ih]

/-- `refDecAll` preserves keys. -/
theorem assocHas_refDecAll (hs : List String) (k : String) :
    ∀ blobs, assocHas (refDecAll hs blobs) k = assocHas blobs k := by
  induction hs with
  | nil => intro blobs; rfl
  | cons h rest ih =>
    intro blobs
    simp only [refDecAll, List.foldl_cons] at *
    rw [ih (refDecOne h blobs), assocHas_refDecOne]

/-- `refIncAll` applied to a list of hashes adds, to each row, the number of
occurrences of its key. -/
theorem refIncAll_spec (hs : List String) :
    ∀ blobs, refIncAll hs blobs =
      blobs.map (fun p => (p.1, ⟨p.2.sizeBytes, p.2.refcount + hs.countP (fun x => x == p.1)⟩)) := by
  induction hs with
  | nil =>
    intro blobs
    simp only [refIncAll, List.foldl_nil, List.countP_nil]
    conv_lhs => rw [← List.map_id blobs]
    apply List.map_congr_left
    intro p _
    simp
  | cons h rest ih =>
    intro blobs
    simp only [refIncAll, List.foldl_cons] at *
    rw [ih (refIncOne h blobs), refIncOne, List.map_map]
    apply List.map_congr_left
    intro p _
    simp only [Function.comp_apply, List.countP_cons]
    by_cases hp : (p.1 == h) = true
    · have hsym : (h == p.1) = true := by
        rw [beq_iff_eq] at hp ⊢; exact hp.symm
      rw [if_pos hp, if_pos hsym]
      simp only []
      congr 1
      congr 1
      omega
    · have hp' : (p.1 == h) = false := by simpa using hp
      have hsym : (h == p.1) = false := by
        rw [beq_eq_false_iff_ne] at hp' ⊢
        exact fun he => hp' he.symm
      rw [if_neg (by simp [hp']), if_neg (by simp [hsym])]
      simp

/-- `refDecAll` applied to a list of hashes subtracts, from each row, the
number of occurrences of its key (`Nat` subtraction floors at zero exactly
as the SQL `MAX(0, …)` chain does). -/
theorem refDecAll_spec (hs : List String) :
    ∀ blobs, refDecAll hs blobs =
      blobs.map (fun p => (p.1, ⟨p.2.sizeBytes, p.2.refcount - hs.countP (fun x => x == p.1)⟩)) := by
  induction hs with
  | nil =>
    intro blobs
    simp only [refDecAll, List.foldl_nil, List.countP_nil]
    conv_lhs => rw [← List.map_id blobs]
    apply List.map_congr_left
    intro p _
    simp
  | cons h rest ih =>
    intro blobs
    simp only [refDecAll, List.foldl_cons] at *
    rw [ih (refDecOne h blobs), refDecOne, List.map_map]
    apply List.map_congr_left
    intro p _
    simp only [Function.comp_apply, List.countP_cons]
    by_cases hp : (p.1 == h) = true
    · have hsym : (h == p.1) = true := by
        rw [beq_iff_eq] at hp ⊢; exact hp.symm
      rw [if_pos hp, if_pos hsym]
      simp only []
      congr 1
      congr 1
      omega
    · have hp' : (p.1 == h) = false := by simpa using hp
      have hsym : (h == p.1) = false := by
        rw [beq_eq_false_iff_ne] at hp' ⊢
        exact fun he => hp' he.symm
      rw [if_neg (by simp [hp']), if_neg (by simp [hsym])]
      simp

/-- When every entry's blob is catalogued, the insert loop succeeds, appends
each entry row in order, and increments once per entry. -/
theorem insertEntriesLoop_ok (id : String) :
    ∀ (es : List Entry) (blobs : List (String × BlobRow)) (rows : List EntryRow),
      (∀ e ∈ es, assocHas blobs e.blob = true) →
      insertEntriesLoop id es blobs rows =
        .ok (refIncAll (es.map (·.blob)) blobs,
             rows ++ es.map (fun e => ⟨id, e.path, e.blob, e.size⟩)) := by
  intro es
  induction es with
  | nil => intro blobs rows _; simp [insertEntriesLoop, refIncAll]
  | cons e rest ih =>
    intro blobs rows hall
    have he : assocHas blobs e.blob = true := hall e (List.mem_cons_self e rest)
    simp only [insertEntriesLoop, List.map_cons]
    rw [if_pos he]
    have hrec := ih (refIncOne e.blob blobs) (rows ++ [⟨id, e.path, e.blob, e.size⟩])
      (fun e' he' => by rw [assocHas_refIncOne]; exact hall e' (List.mem_cons_of_mem e he'))
    rw [hrec]
    simp [refIncAll, List.append_assoc]

/-- When some entry's blob is missing from the catalog, the insert loop
fails with the reference-integrity error naming a missing blob. -/
theorem insertEntriesLoop_error (id : String) :
    ∀ (es : List Entry) (blobs : List (String × BlobRow)) (rows : List EntryRow),
      (∃ e ∈ es, assocHas blobs e.blob = false) →
      ∃ b, insertEntriesLoop id es blobs rows =
        .error ("Referenced blob not found in DB: " ++ b) ∧ assocHas blobs b = false := by
  intro es
  induction es with
  | nil => intro blobs rows h; obtain ⟨e, he, _⟩ := h; cases he
  | cons e rest ih =>
    intro blobs rows h
    cases hb : assocHas blobs e.blob with
    | false =>
      refine ⟨e.blob, ?_, hb⟩
      simp [insertEntriesLoop, hb]
    | true =>
      obtain ⟨e', he', hmiss⟩ := h
      rcases List.mem_cons.mp he' with rfl | hmem
      · rw [hb] at hmiss; cases hmiss
      · have : ∃ e'' ∈ rest, assocHas (refIncOne e.blob blobs) e''.blob = false :=
          ⟨e', hmem, by rw [assocHas_refIncOne]; exact hmiss⟩
        obtain ⟨b, hres, hbm⟩ := ih (refIncOne e.blob blobs)
          (rows ++ [⟨id, e.path, e.blob, e.size⟩]) this
        refine ⟨b, ?_, by rw [assocHas_refIncOne] at hbm; exact hbm⟩
        simp [insertEntriesLoop, hb, hres]

/-- Lookup on a cons cell. -/
theorem assocGet_cons {β : Type} (p : String × β) (rest : List (String × β)) (k : String) :
    assocGet (p :: rest) k = if (p.1 == k) = true then some p.2 else assocGet rest k := by
  cases hpk : (p.1 == k) <;> simp [assocGet, List.find?, hpk]

/-- Keyed lookup ignores filtered-out other keys. -/
theorem assocGet_filter_ne {β : Type} (l : List (String × β)) (id k : String)
    (hne : (k == id) = false) :
    assocGet (l.filter (fun p => !(p.1 == id))) k = assocGet l k := by
  induction l with
  | nil => rfl
  | cons p rest ih =>
    cases hp : (p.1 == id) with
    | true =>
      have hpk : (p.1 == k) = false := by
        rw [beq_iff_eq] at hp
        rw [beq_eq_false_iff_ne] at hne ⊢
        intro he
        exact hne (by rw [← he, hp])
      rw [List.filter_cons, if_neg (by simp [hp]), ih, assocGet_cons, if_neg (by simp [hpk])]
    | false =>
      rw [List.filter_cons, if_pos (by simp [hp]), assocGet_cons, assocGet_cons, ih]

/-- Lookup across an append prefers the left list. -/
theorem assocGet_append {β : Type} (l1 l2 : List (String × β)) (k : String) :
    assocGet (l1 ++ l2) k =
      match assocGet l1 k with
      | some v => some v
      | none => assocGet l2 k := by
  induction l1 with
  | nil => simp [assocGet]
  | cons p rest ih =>
    rw [List.cons_append, assocGet_cons, assocGet_cons]
    cases hpk : (p.1 == k) <;> simp [hpk, ih]

/-- A filtered-out key resolves to nothing. -/
theorem assocGet_filter_self_none {β : Type} (l : List (String × β)) (id : String) :
    assocGet (l.filter (fun p => !(p.1 == id))) id = none := by
  induction l with
  | nil => rfl
  | cons p rest ih =>
    cases hp : (p.1 == id) with
    | true => rw [List.filter_cons, if_neg (by simp [hp])]; exact ih
    | false =>
      rw [List.filter_cons, if_pos (by simp [hp]), assocGet_cons, if_neg (by simp [hp])]
      exact ih

/-- Upsert makes the id resolvable to the new row. -/
theorem assocGet_upsert {β : Type} (l : List (String × β)) (id : String) (row : β) :
    assocGet (l.filter (fun p => !(p.1 == id)) ++ [(id, row)]) id = some row := by
  rw [assocGet_append, assocGet_filter_self_none]
  simp [assocGet, List.find?]

/-- C3: the snapshot write transaction has referential integrity and is
atomic. If any new manifest entry references a blob hash with no row in the
blobs catalog, `put_snapshot` returns the reference-integrity error naming a
missing blob — `Except.error` is the transaction rolled back without commit,
so the durable state is unchanged. Otherwise it returns a state in which the
snapshot row, all its entry rows and all refcount updates are visible
together. -/
theorem put_snapshot_reference_integrity
    (db : Db) (id repoRoot headSha fpJson : String) (m : Manifest)
    (df ap : Option String) :
    ((∃ e ∈ m.entries, assocHas db.blobs e.blob = false) →
      ∃ b, Store.putSnapshot db id repoRoot headSha fpJson m df ap =
          .error ("Referenced blob not found in DB: " ++ b) ∧
        assocHas db.blobs b = false) ∧
    ((∀ e ∈ m.entries, assocHas db.blobs e.blob = true) →
      ∃ db', Store.putSnapshot db id repoRoot headSha fpJson m df ap = .ok db' ∧
        db'.manifestEntries =
          db.manifestEntries.filter (fun r => !(r.sid == id)) ++
            m.entries.map (fun e => ⟨id, e.path, e.blob, e.size⟩) ∧
        db'.blobs = refIncAll (m.entries.map (·.blob))
          (if (assocGet db.snaps id).isSome then
            refDecAll ((entryRowsFor db id).map (·.blobHash)) db.blobs
          else db.blobs) ∧
        (assocGet db'.snaps id).isSome = true ∧
        db'.blobFs = db.blobFs) := by
  have hkeys : ∀ x, assocHas
      (if (assocGet db.snaps id).isSome then
        refDecAll ((entryRowsFor db id).map (·.blobHash)) db.blobs
      else db.blobs) x = assocHas db.blobs x := by
    intro x
    split
    · exact assocHas_refDecAll _ _ _
    · rfl
  constructor
  · intro hmiss
    obtain ⟨e, he, hm⟩ := hmiss
    obtain ⟨b, hres, hbm⟩ := insertEntriesLoop_error id m.entries
      (if (assocGet db.snaps id).isSome then
        refDecAll ((entryRowsFor db id).map (·.blobHash)) db.blobs
      else db.blobs)
      (db.manifestEntries.filter (fun r => !(r.sid == id)))
      ⟨e, he, by rw [hkeys]; exact hm⟩
    rw [hkeys] at hbm
    refine ⟨b, ?_, hbm⟩
    simp only [Store.putSnapshot, hres]
  · intro hall
    have hrec := insertEntriesLoop_ok id m.entries
      (if (assocGet db.snaps id).isSome then
        refDecAll ((entryRowsFor db id).map (·.blobHash)) db.blobs
      else db.blobs)
      (db.manifestEntries.filter (fun r => !(r.sid == id)))
      (fun e he => by rw [hkeys]; exact hall e he)
    refine ⟨{ db with
        blobs := refIncAll (m.entries.map (·.blob))
          (if (assocGet db.snaps id).isSome then
            refDecAll ((entryRowsFor db id).map (·.blobHash)) db.blobs
          else db.blobs),
        snaps := db.snaps.filter (fun p => !(p.1 == id)) ++
          [(id, { repoRoot := repoRoot, headSha := headSha, fingerprintJson := fpJson,
                  manifestHash := "sha256:" ++ hexEncode (sha256 (utf8Bytes m.toCanonicalJson)),
                  manifest := m, derivedFrom := df, appliedPatchHash := ap })],
        manifestEntries := db.manifestEntries.filter (fun r => !(r.sid == id)) ++
          m.entries.map (fun e => ⟨id, e.path, e.blob, e.size⟩) },
      ?_, rfl, rfl, ?_, rfl⟩
    · simp only [Store.putSnapshot, hrec]
    · rw [assocGet_upsert]
      rfl

/-- Witness for C3: on a one-blob catalog the transaction aborts for a
manifest citing an uncatalogued blob and commits for a manifest citing the
catalogued one. -/
theorem put_snapshot_reference_integrity_witness :
    (∃ b, Store.putSnapshot dbBlobOnly "s" "/r" "h" "fp" mMissing none none =
        .error ("Referenced blob not found in DB: " ++ b) ∧
      assocHas dbBlobOnly.blobs b = false) ∧
    (∃ db', Store.putSnapshot dbBlobOnly "s" "/r" "h" "fp" mOk none none = .ok db' ∧
      db'.manifestEntries =
        dbBlobOnly.manifestEntries.filter (fun r => !(r.sid == "s")) ++
          mOk.entries.map (fun e => ⟨"s", e.path, e.blob, e.size⟩) ∧
      db'.blobs = refIncAll (mOk.entries.map (·.blob))
        (if (assocGet dbBlobOnly.snaps "s").isSome then
          refDecAll ((entryRowsFor dbBlobOnly "s").map (·.blobHash)) dbBlobOnly.blobs
        else dbBlobOnly.blobs) ∧
      (assocGet db'.snaps "s").isSome = true ∧
      db'.blobFs = dbBlobOnly.blobFs) :=
  ⟨(put_snapshot_reference_integrity dbBlobOnly "s" "/r" "h" "fp" mMissing none none).1
     ⟨⟨"sha256:bb", "a", 5⟩, by decide, by decide⟩,
   (put_snapshot_reference_integrity dbBlobOnly "s" "/r" "h" "fp" mOk none none).2
     (by decide)⟩

/-- Counting splits across a partition by any second predicate. -/
theorem countP_filter_split {α : Type} (l : List α) (p q : α → Bool) :
    l.countP p = (l.filter q).countP p + (l.filter (fun a => !q a)).countP p := by
  induction l with
  | nil => rfl
  | cons a rest ih =>
    by_cases hq : q a = true <;> by_cases hp : p a = true <;>
      simp [List.filter_cons, List.countP_cons, hq, hp, ih] <;> omega

/-- Presence is monotone under append. -/
theorem assocHas_append_left {β : Type} (l1 l2 : List (String × β)) (k : String)
    (h : assocHas l1 k = true) : assocHas (l1 ++ l2) k = true := by
  simp only [assocHas, List.any_append]
  simp only [assocHas] at h
  rw [h]
  rfl

/-- `refIncAll` preserves keys. -/
theorem assocHas_refIncAll (hs : List String) (k : String) :
    ∀ blobs, assocHas (refIncAll hs blobs) k = assocHas blobs k := by
  induction hs with
  | nil => intro blobs; rfl
  | cons h rest ih =>
    intro blobs
    simp only [refIncAll, List.foldl_cons] at *
    rw [ih (refIncOne h blobs), assocHas_refIncOne]

/-- `put_blob` preserves the refcount invariant and well-formedness: an
`INSERT OR IGNORE` either leaves the catalog unchanged or adds a fresh row
with refcount 0, which no manifest entry can reference yet. -/
theorem putBlob_preserves (db : Db) (data : List Nat)
    (hinv : refcountInv db) (hwf : dbWf db) :
    refcountInv (Store.putBlob db data).2 ∧ dbWf (Store.putBlob db data).2 := by
  simp only [Store.putBlob]
  constructor
  · intro p hp
    simp only at hp
    by_cases hhas : assocHas db.blobs ("sha256:" ++ hexEncode (sha256 data)) = true
    · rw [if_pos hhas] at hp
      exact hinv p hp
    · rw [if_neg hhas] at hp
      rcases List.mem_append.mp hp with hmem | hmem
      · exact hinv p hmem
      · simp only [List.mem_singleton] at hmem
        subst hmem
        simp only [entryRefs]
        symm
        rw [List.countP_eq_zero]
        intro r hr hbeq
        have hhr := hwf.2 r hr
        rw [eq_of_beq hbeq] at hhr
        exact hhas hhr
  · constructor
    · intro r hr
      exact hwf.1 r hr
    · intro r hr
      have hhr := hwf.2 r hr
      simp only []
      by_cases hhas : assocHas db.blobs ("sha256:" ++ hexEncode (sha256 data)) = true
      · rw [if_pos hhas]
        exact hhr
      · rw [if_neg hhas]
        exact assocHas_append_left _ _ _ hhr

/-- `put_snapshot` preserves the refcount invariant and well-formedness: the
overwrite path decrements once per prior entry, the insert loop increments
once per new entry, and the invariant guarantees the decrements never hit
the floor. -/
theorem putSnapshot_preserves (db : Db) (id rr0 hsha fp : String) (m : Manifest)
    (df ap : Option String) (db' : Db)
    (hinv : refcountInv db) (hwf : dbWf db)
    (hok : Store.putSnapshot db id rr0 hsha fp m df ap = .ok db') :
    refcountInv db' ∧ dbWf db' := by
  have hkeys : ∀ x, assocHas
      (if (assocGet db.snaps id).isSome then
        refDecAll ((entryRowsFor db id).map (·.blobHash)) db.blobs
      else db.blobs) x = assocHas db.blobs x := by
    intro x
    split
    · exact assocHas_refDecAll _ _ _
    · rfl
  by_cases hall : ∀ e ∈ m.entries, assocHas db.blobs e.blob = true
  case neg =>
    exfalso
    push_neg at hall
    obtain ⟨e, he, hm⟩ := hall
    have hm' : assocHas db.blobs e.blob = false := by simpa using hm
    obtain ⟨b, hres, _⟩ := insertEntriesLoop_error id m.entries
      (if (assocGet db.snaps id).isSome then
        refDecAll ((entryRowsFor db id).map (·.blobHash)) db.blobs
      else db.blobs)
      (db.manifestEntries.filter (fun r => !(r.sid == id)))
      ⟨e, he, by rw [hkeys]; exact hm'⟩
    simp only [Store.putSnapshot, hres] at hok
    exact Except.noConfusion hok
  case pos =>
    have hrec := insertEntriesLoop_ok id m.entries
      (if (assocGet db.snaps id).isSome then
        refDecAll ((entryRowsFor db id).map (·.blobHash)) db.blobs
      else db.blobs)
      (db.manifestEntries.filter (fun r => !(r.sid == id)))
      (fun e he => by rw [hkeys]; exact hall e he)
    simp only [Store.putSnapshot, hrec] at hok
    injection hok with hok
    subst hok
    constructor
    · intro p hp
      simp only [entryRefs, List.countP_append]
      simp only at hp
      cases hEx : (assocGet db.snaps id).isSome with
      | true =>
        rw [if_pos hEx, refDecAll_spec, refIncAll_spec, List.map_map] at hp
        obtain ⟨q, hq, rfl⟩ := List.mem_map.mp hp
        dsimp only [Function.comp_apply]
        have hqinv := hinv q hq
        simp only [entryRefs] at hqinv
        have hsplit := countP_filter_split db.manifestEntries
          (fun rr => rr.blobHash == q.1) (fun rr => rr.sid == id)
        have hnewrows :
            (m.entries.map (fun e => (⟨id, e.path, e.blob, e.size⟩ : EntryRow))).countP
              (fun rr => rr.blobHash == q.1) =
            (m.entries.map (·.blob)).countP (fun x => x == q.1) := by
          rw [List.countP_map, List.countP_map]
          rfl
        have hold : ((entryRowsFor db id).map (·.blobHash)).countP (fun x => x == q.1) =
            (db.manifestEntries.filter (fun rr => rr.sid == id)).countP
              (fun rr => rr.blobHash == q.1) := by
          simp only [entryRowsFor]
          rw [List.countP_map]
          rfl
        rw [hnewrows, hold]
        omega
      | false =>
        rw [if_neg (by simp [hEx]), refIncAll_spec] at hp
        obtain ⟨q, hq, rfl⟩ := List.mem_map.mp hp
        dsimp only []
        have hqinv := hinv q hq
        simp only [entryRefs] at hqinv
        have hsplit := countP_filter_split db.manifestEntries
          (fun rr => rr.blobHash == q.1) (fun rr => rr.sid == id)
        have hnewrows :
            (m.entries.map (fun e => (⟨id, e.path, e.blob, e.size⟩ : EntryRow))).countP
              (fun rr => rr.blobHash == q.1) =
            (m.entries.map (·.blob)).countP (fun x => x == q.1) := by
          rw [List.countP_map, List.countP_map]
          rfl
        have hempty : (db.manifestEntries.filter (fun rr => rr.sid == id)).countP
            (fun rr => rr.blobHash == q.1) = 0 := by
          rw [List.countP_eq_zero]
          intro r hr _
          have hrdb := List.mem_of_mem_filter hr
          have hcond := List.of_mem_filter hr
          have hs := hwf.1 r hrdb
          rw [eq_of_beq hcond] at hs
          rw [hEx] at hs
          cases hs
        rw [hnewrows]
        omega
    · constructor
      · intro rr hrr
        simp only at hrr
        rcases List.mem_append.mp hrr with hmem | hmem
        · have hcond := List.of_mem_filter hmem
          have hrr' := List.mem_of_mem_filter hmem
          have hs := hwf.1 rr hrr'
          have hne : (rr.sid == id) = false := by simpa using hcond
          simp only []
          rw [assocGet_append, assocGet_filter_ne _ _ _ hne]
          cases hsg : assocGet db.snaps rr.sid with
          | some v => rfl
          | none => rw [hsg] at hs; cases hs
        · obtain ⟨e, he, heq⟩ := List.mem_map.mp hmem
          have hsid : rr.sid = id := by rw [← heq]
          simp only []
          rw [hsid, assocGet_upsert]
          rfl
      · intro rr hrr
        simp only at hrr ⊢
        have hkeys2 : ∀ x, assocHas (refIncAll (m.entries.map (·.blob))
            (if (assocGet db.snaps id).isSome then
              refDecAll ((entryRowsFor db id).map (·.blobHash)) db.blobs
            else db.blobs)) x = assocHas db.blobs x := by
          intro x
          rw [assocHas_refIncAll, hkeys]
        rcases List.mem_append.mp hrr with hmem | hmem
        · rw [hkeys2]
          exact hwf.2 rr (List.mem_of_mem_filter hmem)
        · obtain ⟨e, he, heq⟩ := List.mem_map.mp hmem
          rw [hkeys2]
          have hbh : rr.blobHash = e.blob := by rw [← heq]
          rw [hbh]
          exact hall e he

/-- One operation preserves the refcount invariant and well-formedness. -/
theorem runOp_preserves (db : Db) (op : StoreOp)
    (hinv : refcountInv db) (hwf : dbWf db) :
    refcountInv (runOp db op) ∧ dbWf (runOp db op) := by
  cases op with
  | putBlob data => exact putBlob_preserves db data hinv hwf
  | putSnapshot id rr hsha fp m =>
    simp only [runOp]
    cases hres : Store.putSnapshot db id rr hsha fp m none none with
    | ok db' => exact putSnapshot_preserves db id rr hsha fp m none none db' hinv hwf hres
    | error e => exact ⟨hinv, hwf⟩

/-- C4 amended: after any sequence of blob insertions and snapshot
creations/overwrites starting from the empty store, every blob row's
refcount equals the number of manifest-entry rows that reference its hash,
counted with multiplicity over paths (not the number of snapshots); and
every committed snapshot write first decrements once per prior entry
(`Nat` floor at zero) and then increments once per new entry. -/
theorem refcount_conservation :
    (∀ ops : List StoreOp, refcountInv (runOps ops Db.empty)) ∧
    (∀ (db : Db) (id rr hsha fp : String) (m : Manifest) (df ap : Option String) (db' : Db),
      Store.putSnapshot db id rr hsha fp m df ap = .ok db' →
      db'.blobs = (if (assocGet db.snaps id).isSome then
          refDecAll ((entryRowsFor db id).map (·.blobHash)) db.blobs
        else db.blobs).map
        (fun p => (p.1, ⟨p.2.sizeBytes,
          p.2.refcount + (m.entries.map (·.blob)).countP (fun x => x == p.1)⟩))) := by
  constructor
  · have H : ∀ (ops : List StoreOp) (db : Db), refcountInv db ∧ dbWf db →
        refcountInv (runOps ops db) ∧ dbWf (runOps ops db) := by
      intro ops
      induction ops with
      | nil => intro db h; exact h
      | cons op rest ih =>
        intro db h
        exact ih (runOp db op) (runOp_preserves db op h.1 h.2)
    intro ops
    exact (H ops Db.empty ⟨fun p hp => absurd hp (List.not_mem_nil p),
      fun r hr => absurd hr (List.not_mem_nil r),
      fun r hr => absurd hr (List.not_mem_nil r)⟩).1
  · intro db id rr hsha fp m df ap db' hok
    have hkeys : ∀ x, assocHas
        (if (assocGet db.snaps id).isSome then
          refDecAll ((entryRowsFor db id).map (·.blobHash)) db.blobs
        else db.blobs) x = assocHas db.blobs x := by
      intro x
      split
      · exact assocHas_refDecAll _ _ _
      · rfl
    by_cases hall : ∀ e ∈ m.entries, assocHas db.blobs e.blob = true
    case neg =>
      exfalso
      push_neg at hall
      obtain ⟨e, he, hm⟩ := hall
      have hm' : assocHas db.blobs e.blob = false := by simpa using hm
      obtain ⟨b, hres, _⟩ := insertEntriesLoop_error id m.entries
        (if (assocGet db.snaps id).isSome then
          refDecAll ((entryRowsFor db id).map (·.blobHash)) db.blobs
        else db.blobs)
        (db.manifestEntries.filter (fun r => !(r.sid == id)))
        ⟨e, he, by rw [hkeys]; exact hm'⟩
      simp only [Store.putSnapshot, hres] at hok
      exact Except.noConfusion hok
    case pos =>
      have hrec := insertEntriesLoop_ok id m.entries
        (if (assocGet db.snaps id).isSome then
          refDecAll ((entryRowsFor db id).map (·.blobHash)) db.blobs
        else db.blobs)
        (db.manifestEntries.filter (fun r => !(r.sid == id)))
        (fun e he => by rw [hkeys]; exact hall e he)
      simp only [Store.putSnapshot, hrec] at hok
      injection hok with hok
      subst hok
      simp only []
      rw [refIncAll_spec]

/-- C4 counterexample: one blob inserted, one snapshot created whose
manifest references that blob under two paths — the refcount is 2 while the
number of stored snapshots referencing the blob is 1, refuting both the
once-per-manifest increment and the snapshot-count conservation rule. -/
theorem refcount_conservation_counterexample :
    (assocGet c4Db.blobs c4Hash).map (fun r => r.refcount) = some 2 ∧
    snapRefs c4Db c4Hash = 1 ∧
    ¬((assocGet c4Db.blobs c4Hash).map (fun r => r.refcount) = some (snapRefs c4Db c4Hash)) := by
  decide

/-- Witness for C4's overwrite/increment characterization at a concrete
commit. -/
theorem refcount_conservation_witness :
    c4bDb.blobs = (if (assocGet dbBlobOnly.snaps "s").isSome then
        refDecAll ((entryRowsFor dbBlobOnly "s").map (·.blobHash)) dbBlobOnly.blobs
      else dbBlobOnly.blobs).map
      (fun p => (p.1, ⟨p.2.sizeBytes,
        p.2.refcount + (mOk.entries.map (·.blob)).countP (fun x => x == p.1)⟩)) :=
  refcount_conservation.2 dbBlobOnly "s" "/r" "h" "fp" mOk none none c4bDb (by rfl)

/-! ## Stability lemmas for the snapshot-mode patch pipeline -/

/-- `==` on strings is symmetric in falsehood. -/
theorem beqStr_symm_false (a b : String) (h : (a == b) = false) : (b == a) = false := by
  rw [beq_eq_false_iff_ne] at h ⊢
  exact fun he => h he.symm

/-- Presence coincides with lookup success. -/
theorem assocHas_eq_isSome {β : Type} (l : List (String × β)) (k : String) :
    assocHas l k = (assocGet l k).isSome := by
  induction l with
  | nil => rfl
  | cons p rest ih =>
    rw [assocGet_cons]
    cases hpk : (p.1 == k) <;> simp [assocHas, hpk, ← ih]

/-- `put_blob` never loses a retrievable blob. -/
theorem putBlob_getBlob_stable (db : Db) (data : List Nat) (h : String) (v : List Nat)
    (hv : Store.getBlob db h = some v) :
    Store.getBlob (Store.putBlob db data).2 h = some v := by
  simp only [Store.getBlob, Store.putBlob] at hv ⊢
  by_cases hhas : assocHas db.blobFs ("sha256:" ++ hexEncode (sha256 data)) = true
  · rw [if_pos hhas]
    exact hv
  · rw [if_neg hhas, assocGet_append, hv]

/-- `put_blob` catalogues the hash it returns. -/
theorem putBlob_has_self (db : Db) (data : List Nat) :
    assocHas (Store.putBlob db data).2.blobs ("sha256:" ++ hexEncode (sha256 data)) = true := by
  simp only [Store.putBlob]
  by_cases hhas : assocHas db.blobs ("sha256:" ++ hexEncode (sha256 data)) = true
  · rw [if_pos hhas]
    exact hhas
  · rw [if_neg hhas]
    rw [assocHas_eq_isSome, assocGet_append, assocGet_cons]
    cases hg : assocGet db.blobs ("sha256:" ++ hexEncode (sha256 data)) with
    | some v => simp
    | none => simp [assocGet]

/-- `put_blob` keeps existing catalog rows present. -/
theorem putBlob_blobs_mono (db : Db) (data : List Nat) (h : String)
    (hh : assocHas db.blobs h = true) :
    assocHas (Store.putBlob db data).2.blobs h = true := by
  simp only [Store.putBlob]
  by_cases hhas : assocHas db.blobs ("sha256:" ++ hexEncode (sha256 data)) = true
  · rw [if_pos hhas]
    exact hh
  · rw [if_neg hhas]
    exact assocHas_append_left _ _ _ hh

/-- The manifest entries produced by ingesting scratch contents depend only
on the contents, never on the store state. -/
theorem ingestFiles_entries (files : List (String × List Nat)) :
    ∀ db : Db, (ingestFiles db files).1 =
      files.map (fun pc => ⟨"sha256:" ++ hexEncode (sha256 pc.2), pc.1, pc.2.length⟩) := by
  induction files with
  | nil => intro db; rfl
  | cons pc rest ih =>
    intro db
    obtain ⟨path, content⟩ := pc
    simp only [ingestFiles, Store.putBlob, List.map_cons]
    rw [ih]

/-- Ingestion touches neither snapshots nor manifest entries. -/
theorem ingestFiles_rows_stable (files : List (String × List Nat)) :
    ∀ db : Db, (ingestFiles db files).2.snaps = db.snaps ∧
      (ingestFiles db files).2.manifestEntries = db.manifestEntries := by
  induction files with
  | nil => intro db; exact ⟨rfl, rfl⟩
  | cons pc rest ih =>
    intro db
    obtain ⟨path, content⟩ := pc
    simp only [ingestFiles]
    exact ih (Store.putBlob db content).2

/-- Ingestion never loses a retrievable blob. -/
theorem ingestFiles_getBlob_stable (files : List (String × List Nat)) :
    ∀ (db : Db) (h : String) (v : List Nat), Store.getBlob db h = some v →
      Store.getBlob (ingestFiles db files).2 h = some v := by
  induction files with
  | nil => intro db h v hv; exact hv
  | cons pc rest ih =>
    intro db h v hv
    obtain ⟨path, content⟩ := pc
    simp only [ingestFiles]
    exact ih (Store.putBlob db content).2 h v (putBlob_getBlob_stable db content h v hv)

/-- Ingestion keeps existing catalog rows present. -/
theorem ingestFiles_blobs_mono (files : List (String × List Nat)) :
    ∀ (db : Db) (h : String), assocHas db.blobs h = true →
      assocHas (ingestFiles db files).2.blobs h = true := by
  induction files with
  | nil => intro db h hh; exact hh
  | cons pc rest ih =>
    intro db h hh
    obtain ⟨path, content⟩ := pc
    simp only [ingestFiles]
    exact ih (Store.putBlob db content).2 h (putBlob_blobs_mono db content h hh)

/-- Every entry produced by ingestion has a catalog row in the resulting
state. -/
theorem ingestFiles_blobs_self (files : List (String × List Nat)) :
    ∀ (db : Db), ∀ e ∈ (ingestFiles db files).1,
      assocHas (ingestFiles db files).2.blobs e.blob = true := by
  induction files with
  | nil => intro db e he; cases he
  | cons pc rest ih =>
    intro db e he
    obtain ⟨path, content⟩ := pc
    simp only [ingestFiles] at he ⊢
    rcases List.mem_cons.mp he with rfl | hmem
    · exact ingestFiles_blobs_mono rest (Store.putBlob db content).2 _
        (putBlob_has_self db content)
    · exact ih (Store.putBlob db content).2 e hmem

/-- Materialization is stable under any state change that preserves the
retrievable blobs. -/
theorem materializeEntries_stable (entries : List Entry) :
    ∀ (db db2 : Db) (files : List (String × List Nat)),
      (∀ h v, Store.getBlob db h = some v → Store.getBlob db2 h = some v) →
      materializeEntries db entries = some files →
      materializeEntries db2 entries = some files := by
  induction entries with
  | nil => intro db db2 files _ hm; exact hm
  | cons e rest ih =>
    intro db db2 files hst hm
    simp only [materializeEntries] at hm ⊢
    cases hg : Store.getBlob db e.blob with
    | none => rw [hg] at hm; cases hm
    | some content =>
      rw [hg] at hm
      rw [hst e.blob content hg]
      cases hr : materializeEntries db rest with
      | none => rw [hr] at hm; cases hm
      | some fs =>
        rw [hr] at hm
        rw [ih db db2 fs hst hr]
        exact hm

/-- A committed snapshot write leaves every other snapshot's row, entry
rows, blob-key presence and backend contents unchanged. -/
theorem putSnapshot_stable_other (db : Db) (id rr0 hsha fp : String) (m : Manifest)
    (df ap : Option String) (db' : Db) (sid : String)
    (hok : Store.putSnapshot db id rr0 hsha fp m df ap = .ok db')
    (hne : (sid == id) = false) :
    assocGet db'.snaps sid = assocGet db.snaps sid ∧
    entryRowsFor db' sid = entryRowsFor db sid ∧
    db'.blobFs = db.blobFs ∧
    (∀ h, assocHas db'.blobs h = assocHas db.blobs h) := by
  have hkeys : ∀ x, assocHas
      (if (assocGet db.snaps id).isSome then
        refDecAll ((entryRowsFor db id).map (·.blobHash)) db.blobs
      else db.blobs) x = assocHas db.blobs x := by
    intro x
    split
    · exact assocHas_refDecAll _ _ _
    · rfl
  by_cases hall : ∀ e ∈ m.entries, assocHas db.blobs e.blob = true
  case neg =>
    exfalso
    push_neg at hall
    obtain ⟨e, he, hm⟩ := hall
    have hm' : assocHas db.blobs e.blob = false := by simpa using hm
    obtain ⟨b, hres, _⟩ := insertEntriesLoop_error id m.entries
      (if (assocGet db.snaps id).isSome then
        refDecAll ((entryRowsFor db id).map (·.blobHash)) db.blobs
      else db.blobs)
      (db.manifestEntries.filter (fun r => !(r.sid == id)))
      ⟨e, he, by rw [hkeys]; exact hm'⟩
    simp only [Store.putSnapshot, hres] at hok
    exact Except.noConfusion hok
  case pos =>
    have hrec := insertEntriesLoop_ok id m.entries
      (if (assocGet db.snaps id).isSome then
        refDecAll ((entryRowsFor db id).map (·.blobHash)) db.blobs
      else db.blobs)
      (db.manifestEntries.filter (fun r => !(r.sid == id)))
      (fun e he => by rw [hkeys]; exact hall e he)
    simp only [Store.putSnapshot, hrec] at hok
    injection hok with hok
    subst hok
    refine ⟨?_, ?_, rfl, ?_⟩
    · simp only []
      rw [assocGet_append, assocGet_filter_ne _ _ _ hne]
      cases hg : assocGet db.snaps sid with
      | some v => rfl
      | none =>
        rw [assocGet_cons]
        rw [if_neg (by simp [beqStr_symm_false sid id hne])]
        rfl
    · simp only [entryRowsFor, List.filter_append]
      have h1 : (db.manifestEntries.filter (fun r => !(r.sid == id))).filter
          (fun r => r.sid == sid) = db.manifestEntries.filter (fun r => r.sid == sid) := by
        induction db.manifestEntries with
        | nil => rfl
        | cons r rest ih =>
          cases hrs : (r.sid == sid) with
          | true =>
            have hrid : (r.sid == id) = false := by
              rw [eq_of_beq hrs]
              exact hne
            rw [List.filter_cons, if_pos (by simp [hrid]), List.filter_cons, if_pos (by simp [hrs]),
              List.filter_cons, if_pos (by simp [hrs]), ih]
          | false =>
            cases hrid : (r.sid == id) with
            | true =>
              rw [List.filter_cons, if_neg (by simp [hrid]), List.filter_cons,
                if_neg (by simp [hrs]), ih]
            | false =>
              rw [List.filter_cons, if_pos (by simp [hrid]), List.filter_cons,
                if_neg (by simp [hrs]), List.filter_cons, if_neg (by simp [hrs]), ih]
      have h2 : (m.entries.map (fun e => (⟨id, e.path, e.blob, e.size⟩ : EntryRow))).filter
          (fun r => r.sid == sid) = [] := by
        rw [List.filter_eq_nil_iff]
        intro r hr
        obtain ⟨e, _, heq⟩ := List.mem_map.mp hr
        have : r.sid = id := by rw [← heq]
        rw [this]
        simp [beqStr_symm_false sid id hne]
      rw [h1, h2, List.append_nil]
    · intro h
      simp only []
      rw [assocHas_refIncAll, hkeys]

/-- `put_blob` keeps existing backend files present. -/
theorem putBlob_blobFs_mono (db : Db) (data : List Nat) (h : String)
    (hh : assocHas db.blobFs h = true) :
    assocHas (Store.putBlob db data).2.blobFs h = true := by
  simp only [Store.putBlob]
  by_cases hhas : assocHas db.blobFs ("sha256:" ++ hexEncode (sha256 data)) = true
  · rw [if_pos hhas]
    exact hh
  · rw [if_neg hhas]
    exact assocHas_append_left _ _ _ hh

/-- Ingestion keeps existing backend files present. -/
theorem ingestFiles_blobFs_mono (files : List (String × List Nat)) :
    ∀ (db : Db) (h : String), assocHas db.blobFs h = true →
      assocHas (ingestFiles db files).2.blobFs h = true := by
  induction files with
  | nil => intro db h hh; exact hh
  | cons pc rest ih =>
    intro db h hh
    obtain ⟨path, content⟩ := pc
    simp only [ingestFiles]
    exact ih (Store.putBlob db content).2 h (putBlob_blobFs_mono db content h hh)

/-- Listing a snapshot's entries only depends on its entry rows and its
snapshot row. -/
theorem listSnapshotEntries_congr (db db2 : Db) (sid : String)
    (hsn : assocGet db2.snaps sid = assocGet db.snaps sid)
    (hen : entryRowsFor db2 sid = entryRowsFor db sid) :
    Store.listSnapshotEntries db2 sid = Store.listSnapshotEntries db sid := by
  simp only [Store.listSnapshotEntries, hen, hsn]

/-- Snapshot validation is stable under state changes that preserve the
snapshot's row, its entry rows, blob-row presence and backend presence. -/
theorem validateSnapshot_stable (db db2 : Db) (sid : String)
    (hsn : assocGet db2.snaps sid = assocGet db.snaps sid)
    (hen : entryRowsFor db2 sid = entryRowsFor db sid)
    (hblob : ∀ h, assocHas db.blobs h = true → assocHas db2.blobs h = true)
    (hfs : ∀ h, assocHas db.blobFs h = true → assocHas db2.blobFs h = true)
    (hv : Store.validateSnapshot db sid = .ok ()) :
    Store.validateSnapshot db2 sid = .ok () := by
  have hlse := listSnapshotEntries_congr db db2 sid hsn hen
  simp only [Store.validateSnapshot] at hv ⊢
  rw [hlse, hsn]
  by_cases h1 : (assocGet db.snaps sid).isNone = true
  · rw [if_pos h1] at hv
    exact Except.noConfusion hv
  · rw [if_neg h1] at hv
    rw [if_neg h1]
    by_cases h2 :
        (!(Store.listSnapshotEntries db sid).all fun e => Store.validatePath e.path) = true
    · rw [if_pos h2] at hv
      exact Except.noConfusion hv
    · rw [if_neg h2] at hv
      rw [if_neg h2]
      by_cases h3 : (!strictlyAscending (Store.listSnapshotEntries db sid)) = true
      · rw [if_pos h3] at hv
        exact Except.noConfusion hv
      · rw [if_neg h3] at hv
        rw [if_neg h3]
        by_cases h4 : ((Store.listSnapshotEntries db sid).all fun e =>
            (assocGet db.blobs e.blob).isSome && assocHas db.blobFs e.blob) = true
        · have h4b : ((Store.listSnapshotEntries db sid).all fun e =>
              (assocGet db2.blobs e.blob).isSome && assocHas db2.blobFs e.blob) = true := by
            rw [List.all_eq_true] at h4 ⊢
            intro e he
            have hco := h4 e he
            rw [Bool.and_eq_true] at hco ⊢
            refine ⟨?_, hfs e.blob hco.2⟩
            have hb : assocHas db.blobs e.blob = true := by
              rw [assocHas_eq_isSome]
              exact hco.1
            have hb2 := hblob e.blob hb
            rw [assocHas_eq_isSome] at hb2
            exact hb2
          rw [if_pos h4b]
        · rw [if_neg h4] at hv
          exact Except.noConfusion hv

/-- When every entry's blob is catalogued, `put_snapshot` commits. -/
theorem putSnapshot_ok_of_all (db : Db) (id rr0 hsha fp : String) (m : Manifest)
    (df ap : Option String)
    (hall : ∀ e ∈ m.entries, assocHas db.blobs e.blob = true) :
    ∃ db', Store.putSnapshot db id rr0 hsha fp m df ap = .ok db' := by
  have hkeys : ∀ x, assocHas
      (if (assocGet db.snaps id).isSome then
        refDecAll ((entryRowsFor db id).map (·.blobHash)) db.blobs
      else db.blobs) x = assocHas db.blobs x := by
    intro x
    split
    · exact assocHas_refDecAll _ _ _
    · rfl
  have hrec := insertEntriesLoop_ok id m.entries
    (if (assocGet db.snaps id).isSome then
      refDecAll ((entryRowsFor db id).map (·.blobHash)) db.blobs
    else db.blobs)
    (db.manifestEntries.filter (fun r => !(r.sid == id)))
    (fun e he => by rw [hkeys]; exact hall e he)
  cases hres : Store.putSnapshot db id rr0 hsha fp m df ap with
  | error e =>
    simp only [Store.putSnapshot, hrec] at hres
    exact Except.noConfusion hres
  | ok db' => exact ⟨db', rfl⟩

/-- C5: in snapshot mode `apply_patch` computes the derived snapshot id from
the base snapshot's stored fingerprint together with the post-patch manifest
— the live repository is not an input of `applyPatchSnapshot` at all — and
applying the same patch bytes to the same base snapshot a second time, after
the first application committed, yields the same derived snapshot id. (The
hypothesis `id1 ≠ sid` rules out the degenerate overwrite of the base
snapshot itself, which only a hash collision or an output-preserving patch
could produce.) -/
theorem apply_patch_snapshot_idempotent
    (engine : String → List (String × List Nat) → Option (List (String × List Nat)))
    (db : Db) (sid patch : String) (id1 : String) (db1 : Db)
    (h1 : WorkspaceTools.applyPatchSnapshot engine db (some sid) patch = .ok (id1, db1))
    (hne : id1 ≠ sid) :
    (∃ info : SnapRow, Store.getSnapshotInfo db sid = some info ∧
      ∃ newEntries : List Entry,
        id1 = (Manifest.new newEntries).computeSnapshotId info.fingerprintJson) ∧
    ∃ db2, WorkspaceTools.applyPatchSnapshot engine db1 (some sid) patch = .ok (id1, db2) := by
  simp only [WorkspaceTools.applyPatchSnapshot] at h1
  cases hval : Store.validateSnapshot db sid with
  | error e =>
    simp only [hval] at h1
    exact Except.noConfusion h1
  | ok u =>
    cases u
    simp only [hval] at h1
    cases hinfo : Store.getSnapshotInfo db sid with
    | none =>
      simp only [hinfo] at h1
      exact Except.noConfusion h1
    | some info =>
      simp only [hinfo] at h1
      cases hmat : materializeEntries db (Store.listSnapshotEntries db sid) with
      | none =>
        simp only [hmat] at h1
        exact Except.noConfusion h1
      | some files =>
        simp only [hmat] at h1
        cases heng : engine patch files with
        | none =>
          simp only [heng] at h1
          injection h1 with h1
          exact absurd (congrArg Prod.fst h1).symm hne
        | some files' =>
          simp only [heng] at h1
          rcases hing : ingestFiles db files' with ⟨NE, DBI⟩
          simp only [hing] at h1
          cases hput : Store.putSnapshot DBI
              ((Manifest.new NE).computeSnapshotId info.fingerprintJson)
              info.repoRoot info.headSha info.fingerprintJson (Manifest.new NE)
              (some sid) (some ("sha256:" ++ hexEncode (sha256 (utf8Bytes patch)))) with
          | error e =>
            simp only [hput] at h1
            exact Except.noConfusion h1
          | ok db2' =>
            simp only [hput] at h1
            injection h1 with h1
            have hid : (Manifest.new NE).computeSnapshotId info.fingerprintJson = id1 :=
              congrArg Prod.fst h1
            have hdb : db2' = db1 := congrArg Prod.snd h1
            subst hid
            subst hdb
            have hneb : (sid == (Manifest.new NE).computeSnapshotId info.fingerprintJson) =
                false := by
              rw [beq_eq_false_iff_ne]
              exact fun he => hne he.symm
            obtain ⟨hsn1, hen1, hfs1, hbl1⟩ := putSnapshot_stable_other DBI
              ((Manifest.new NE).computeSnapshotId info.fingerprintJson)
              info.repoRoot info.headSha info.fingerprintJson (Manifest.new NE)
              (some sid) (some ("sha256:" ++ hexEncode (sha256 (utf8Bytes patch))))
              db2' sid hput hneb
            have hiRows := ingestFiles_rows_stable files' db
            rw [hing] at hiRows
            simp only [] at hiRows
            have hsn : assocGet db2'.snaps sid = assocGet db.snaps sid := by
              rw [hsn1]
              rw [hiRows.1]
            have hen : entryRowsFor db2' sid = entryRowsFor db sid := by
              rw [hen1]
              simp only [entryRowsFor, hiRows.2]
            have hblob : ∀ h, assocHas db.blobs h = true → assocHas db2'.blobs h = true := by
              intro h hh
              rw [hbl1]
              have := ingestFiles_blobs_mono files' db h hh
              rw [hing] at this
              exact this
            have hfs : ∀ h, assocHas db.blobFs h = true → assocHas db2'.blobFs h = true := by
              intro h hh
              rw [hfs1]
              have := ingestFiles_blobFs_mono files' db h hh
              rw [hing] at this
              exact this
            have hval2 : Store.validateSnapshot db2' sid = .ok () :=
              validateSnapshot_stable db db2' sid hsn hen hblob hfs hval
            have hinfo2 : Store.getSnapshotInfo db2' sid = some info := by
              simp only [Store.getSnapshotInfo] at hinfo ⊢
              rw [hsn]
              exact hinfo
            have hlse2 : Store.listSnapshotEntries db2' sid =
                Store.listSnapshotEntries db sid := listSnapshotEntries_congr db db2' sid hsn hen
            have hmat2 : materializeEntries db2' (Store.listSnapshotEntries db2' sid) =
                some files := by
              rw [hlse2]
              refine materializeEntries_stable _ db db2' files ?_ hmat
              intro h v hv
              have hstb := ingestFiles_getBlob_stable files' db h v hv
              rw [hing] at hstb
              simp only [Store.getBlob] at hstb ⊢
              rw [hfs1]
              exact hstb
            rcases hing2 : ingestFiles db2' files' with ⟨NE2, DBI2⟩
            have hNE2 : NE2 = NE := by
              have e1 := ingestFiles_entries files' db2'
              have e2 := ingestFiles_entries files' db
              rw [hing2] at e1
              rw [hing] at e2
              simp only [] at e1 e2
              rw [e1, ← e2]
            have hall2 : ∀ e ∈ (Manifest.new NE).entries, assocHas DBI2.blobs e.blob = true := by
              intro e he
              have hmem : e ∈ NE := ((List.perm_insertionSort entryLe NE).mem_iff).mp he
              have hmem2 : e ∈ (ingestFiles db2' files').1 := by
                rw [hing2]
                simp only []
                rw [hNE2]
                exact hmem
              have := ingestFiles_blobs_self files' db2' e hmem2
              rw [hing2] at this
              exact this
            obtain ⟨db2'', hput2⟩ := putSnapshot_ok_of_all DBI2
              ((Manifest.new NE).computeSnapshotId info.fingerprintJson)
              info.repoRoot info.headSha info.fingerprintJson (Manifest.new NE)
              (some sid) (some ("sha256:" ++ hexEncode (sha256 (utf8Bytes patch)))) hall2
            refine ⟨⟨info, rfl, NE, rfl⟩, db2'', ?_⟩
            simp only [WorkspaceTools.applyPatchSnapshot, hval2, hinfo2, hmat2, heng, hing2,
              hNE2, hput2]

/-- Witness for C5: a no-op engine over a one-file base snapshot; the first
run's derived id, applied again on the resulting state, is re-derived
unchanged. -/
theorem apply_patch_snapshot_idempotent_witness :
    (∃ info : SnapRow, Store.getSnapshotInfo dbC5 "base" = some info ∧
      ∃ newEntries : List Entry,
        c5Id = (Manifest.new newEntries).computeSnapshotId info.fingerprintJson) ∧
    ∃ db2, WorkspaceTools.applyPatchSnapshot engC5 c5Db1 (some "base") "P" = .ok (c5Id, db2) :=
  apply_patch_snapshot_idempotent engC5 dbC5 "base" "P" c5Id c5Db1 (by rfl) (by decide)

end Cortex
